import Mathlib

set_option maxHeartbeats 1000000

/-!
Verification of the asynchronous save/restore core of the snapshot
repository, a shallow embedding of `src/snapshot_ca.py` (classes
`SnapshotPv` and `Snapshot`, plus the save-file codec
`parse_to_save_file` / `parse_from_save_file`).

Modelling conventions:
* pyepics/numpy values are modelled by the inductive `Value`
  (JSON-compatible: null / integer scalars / strings / arrays).
  Floating point values are outside the model's scope.
* Side effects are made explicit: the file written by
  `parse_to_save_file` is returned as a list of lines, and the callbacks
  fired by the restore machinery are returned as lists of events.
* The asynchronous `put` completions of `restore_pv` are modelled by a
  separate delivery step (`run_completions`), quantified over arbitrary
  delivery orders where a theorem needs it.
-/

/-- Values delivered by the transport / stored in save files:
Python `None`, integer scalars, strings and (numpy) arrays. -/
inductive Value : Type
  | null : Value
  | int : Int → Value
  | str : String → Value
  | arr : List Value → Value

mutual

/-- Structural equality, mirroring Python `==` on scalars/strings and
element lists (restricted to the JSON-compatible values of the model). -/
def valueBeq : Value → Value → Bool
  | Value.null, Value.null => true
  | Value.int a, Value.int b => a == b
  | Value.str a, Value.str b => a == b
  | Value.arr l, Value.arr m => valueListBeq l m
  | _, _ => false
termination_by structural v => v

/-- Element-wise equality of value lists. -/
def valueListBeq : List Value → List Value → Bool
  | [], [] => true
  | a :: l, b :: m => valueBeq a b && valueListBeq l m
  | _, _ => false
termination_by structural l => l

end

/-- Python `==` lifted to optional values (`None == None` is `True`). -/
def optValueBeq : Option Value → Option Value → Bool
  | none, none => true
  | some a, some b => valueBeq a b
  | _, _ => false

/-- `numpy.size` of a monitored value: arrays count their elements,
scalars count 1. -/
def npSize : Value → Nat
  | Value.arr l => l.length
  | _ => 1

/-- `numpy.size` applied to a possibly-absent value: `numpy.size(None)`
is 1 (a zero-dimensional object array). -/
def npOptSize : Option Value → Nat
  | none => 1
  | some v => npSize v

/-- The element boxed by `numpy.asarray([x])` in `save_pv`'s size-1
normalization: a present value is boxed as is, `None` becomes a null
element. -/
def npBoxElem : Option Value → Value
  | none => Value.null
  | some v => v

/-- `numpy.array_equal` on the model's values: equal shape and equal
elements.  A scalar never equals a one-element array (shapes differ). -/
def npArrayEqual : Value → Value → Bool
  | Value.arr l, Value.arr m => valueListBeq l m
  | Value.arr _, _ => false
  | _, Value.arr _ => false
  | a, b => valueBeq a b

/-- `numpy.array_equal` on possibly-absent values, as used by
`SnapshotPv.compare` where either side may be `None`. -/
def npArrayEqualOpt : Option Value → Option Value → Bool
  | none, none => true
  | some a, some b => npArrayEqual a b
  | _, _ => false

/-- Per-channel status, `PvStatus` of `snapshot_ca.py`. -/
inductive PvStatus : Type
  | access_err : PvStatus
  | ok : PvStatus
  | no_value : PvStatus
  | equal : PvStatus
deriving DecidableEq

/-- Aggregate operation status, `ActionStatus` of `snapshot_ca.py`. -/
inductive ActionStatus : Type
  | busy : ActionStatus
  | ok : ActionStatus
  | no_data : ActionStatus
  | no_cnct : ActionStatus
  | timeout : ActionStatus
deriving DecidableEq

/-- State of one `SnapshotPv` (pyepics `PV` subclass).  `monitor_value`
is the most recently delivered monitored value (`self.value`, equally
`self.get(use_monitor=True)`); `cnct_lost` is the connection flag kept
up to date inside the connection callback, before the transport updates
`connected`.  The continuous-compare bookkeeping fields of the source
(`compare_callback_id`, `last_compare`) play no role in the claims and
are omitted. -/
structure SnapshotPv : Type where
  pvname_raw : String
  connected : Bool
  read_access : Bool
  write_access : Bool
  is_array : Bool
  monitor_value : Option Value
  saved_value : Option Value
  value_to_restore : Option Value
  cnct_lost : Bool

namespace SnapshotPv

/-- `SnapshotPv.save_pv`: non-blocking save.  Returns the updated
channel and the per-channel status.  Mirrors the source exactly: the
saved value is the latest monitored value, normalized for array
channels (empty array becomes `None`, size-1 values are boxed into a
one-element array), the status is `no_value` iff the raw `self.value`
is `None`; when not connected the captured value is cleared, while on a
pure read-access error the channel is left untouched. -/
def save_pv (pv : SnapshotPv) : SnapshotPv × PvStatus :=
  if pv.connected then
    if pv.read_access then
      let sv :=
        if pv.is_array then
          if npOptSize pv.monitor_value = 0 then none
          else if npOptSize pv.monitor_value = 1 then
            some (Value.arr [npBoxElem pv.monitor_value])
          else pv.monitor_value
        else pv.monitor_value
      ({ pv with saved_value := sv },
       if pv.monitor_value.isNone then PvStatus.no_value else PvStatus.ok)
    else (pv, PvStatus.access_err)
  else ({ pv with saved_value := none }, PvStatus.access_err)

/-- `SnapshotPv.compare`: array-aware equality of a live value against
`value_to_restore` (`numpy.array_equal` for array channels, Python `==`
otherwise). -/
def compare (pv : SnapshotPv) (value : Option Value) : Bool :=
  if pv.is_array then npArrayEqualOpt value pv.value_to_restore
  else optValueBeq value pv.value_to_restore

/-- The synchronous part of `SnapshotPv.restore_pv`: `some status` when
the completion callback is invoked immediately (no connection / no
write access / no value to restore / values already equal), `none` when
an asynchronous `put` is issued, whose completion later reports
`PvStatus.ok`. -/
def restore_pv_immediate (pv : SnapshotPv) : Option PvStatus :=
  if pv.connected then
    if pv.write_access then
      if pv.value_to_restore.isNone then some PvStatus.no_value
      else if pv.compare pv.monitor_value then some PvStatus.equal
      else none
    else some PvStatus.access_err
  else some PvStatus.access_err

end SnapshotPv

/-- One aggregate completion-callback invocation by the restore
coordinator: the full ordered outcome list handed to the caller
(`dict(self.restored_pvs_list)`) and the `forced` flag. -/
structure RestoreEvent : Type where
  outcomes : List (String × PvStatus)
  forced : Bool

/-- State of one `Snapshot` object (the channel set plus the restore
coordinator).  `pvs` is the insertion-ordered dictionary keyed by
resolved channel name; `restore_callback` records whether a caller
completion callback is registered.  Continuous-compare state is
omitted (no claim concerns it). -/
structure Snapshot : Type where
  pvs : List (String × SnapshotPv)
  restore_started : Bool
  restore_values_loaded : Bool
  all_connected : Bool
  current_restore_forced : Bool
  restored_pvs_list : List (String × PvStatus)
  restore_callback : Bool

namespace Snapshot

/-- Dictionary lookup `self.pvs.get(name)`. -/
def lookupPv : List (String × SnapshotPv) → String → Option SnapshotPv
  | [], _ => none
  | (k, v) :: rest, name => if k = name then some v else lookupPv rest name

/-- `Snapshot.check_pvs_connected_status`: scan a subset (or, for
`none`, all channels) and report `false` as soon as one has
`cnct_lost` set.  A name absent from the dictionary would raise in the
source (caller error); the model treats it as connected. -/
def check_pvs_connected_status (snap : Snapshot) (pvs : Option (List String)) : Bool :=
  match pvs with
  | none => snap.pvs.all (fun p => !p.2.cnct_lost)
  | some l => l.all (fun n =>
      match lookupPv snap.pvs n with
      | some pv => !pv.cnct_lost
      | none => true)

/-- `Snapshot.update_all_connected_status`: incremental maintenance of
the `all_connected` aggregate.  The returned boolean records whether the
full rescan (`check_pvs_connected_status` over all channels) was
performed. -/
def update_all_connected_status (snap : Snapshot) (pvname : Option String) :
    Snapshot × Bool :=
  match pvname.bind (lookupPv snap.pvs) with
  | some pv =>
    if pv.cnct_lost then ({ snap with all_connected := false }, false)
    else if snap.all_connected = false then
      ({ snap with all_connected := snap.check_pvs_connected_status none }, true)
    else (snap, false)
  | none =>
    ({ snap with all_connected := snap.check_pvs_connected_status none }, true)

/-- Overwrite the `cnct_lost` flag of the named channel (the assignment
done by `SnapshotPv.internal_cnct_callback` before it forwards the
event). -/
def setCnctLost : List (String × SnapshotPv) → String → Bool → List (String × SnapshotPv)
  | [], _, _ => []
  | (k, v) :: rest, name, b =>
    if k = name then (k, { v with cnct_lost := b }) :: setCnctLost rest name b
    else (k, v) :: setCnctLost rest name b

/-- Overwrite the transport-owned `connected` flag of a channel (pyepics
updates it after the connection callbacks have run). -/
def setConnected : List (String × SnapshotPv) → String → Bool → List (String × SnapshotPv)
  | [], _, _ => []
  | (k, v) :: rest, name, b =>
    if k = name then (k, { v with connected := b }) :: setConnected rest name b
    else (k, v) :: setConnected rest name b

/-- One transport connection event for channel `name`:
`internal_cnct_callback` records `cnct_lost := not conn` and forwards to
`Snapshot.update_all_connected_status`; afterwards the transport updates
the channel's own `connected` flag.  The boolean reports whether the
aggregate was recomputed by a full scan. -/
def connection_event (snap : Snapshot) (name : String) (conn : Bool) :
    Snapshot × Bool :=
  let s1 : Snapshot := { snap with pvs := setCnctLost snap.pvs name (!conn) }
  let r := s1.update_all_connected_status (some name)
  ({ r.1 with pvs := setConnected r.1.pvs name conn }, r.2)

/-- `Snapshot.get_not_connected_pvs_names`: diagnostic listing of
disconnected channels, restricted to `selected` when non-empty. -/
def get_not_connected_pvs_names (snap : Snapshot) (selected : List String) :
    List String :=
  if snap.all_connected then []
  else (snap.pvs.filter
    (fun p => !p.2.connected && (selected.contains p.1 || selected.isEmpty))).map Prod.fst

/-- `Snapshot.check_restore_complete`: the per-channel completion hook.
Appends the outcome; when every channel of the set has reported and a
caller callback is registered, leaves the `Running` state, fires the
aggregate callback once (returned as an event) and clears it. -/
def check_restore_complete (snap : Snapshot) (pv_name : String) (status : PvStatus) :
    Snapshot × List RestoreEvent :=
  if (snap.restored_pvs_list ++ [(pv_name, status)]).length = snap.pvs.length ∧
      snap.restore_callback = true then
    ({ snap with restored_pvs_list := snap.restored_pvs_list ++ [(pv_name, status)],
                 restore_started := false, restore_callback := false },
     [⟨snap.restored_pvs_list ++ [(pv_name, status)], snap.current_restore_forced⟩])
  else ({ snap with restored_pvs_list := snap.restored_pvs_list ++ [(pv_name, status)] }, [])

/-- Deliver a sequence of per-channel completions through
`check_restore_complete`, collecting the aggregate callback
invocations.  Used both for the synchronous completions inside
`restore_pvs` and for the asynchronous `put` confirmations (which
always report `PvStatus.ok`). -/
def run_completions (snap : Snapshot) :
    List (String × PvStatus) → Snapshot × List RestoreEvent
  | [] => (snap, [])
  | (n, st) :: rest =>
    let r1 := snap.check_restore_complete n st
    let r2 := run_completions r1.1 rest
    (r2.1, r1.2 ++ r2.2)

/-- Whether a channel takes part in the restore: empty selection means
"restore all" (`if not selected or pv_name in selected`). -/
def participates (selected : List String) (name : String) : Bool :=
  selected.isEmpty || selected.contains name

/-- The loop body of `Snapshot.restore_pvs`: participating channels run
`restore_pv` with `check_restore_complete` as completion hook (either an
immediate synchronous outcome or a pending asynchronous `put`, collected
in the returned name list); unselected channels are immediately recorded
as a synthetic `ok`. -/
def restore_loop (selected : List String) (snap : Snapshot) :
    List (String × SnapshotPv) → Snapshot × List String × List RestoreEvent
  | [] => (snap, [], [])
  | (name, pv) :: rest =>
    if participates selected name then
      match pv.restore_pv_immediate with
      | some st =>
        let r1 := snap.check_restore_complete name st
        let r2 := restore_loop selected r1.1 rest
        (r2.1, r2.2.1, r1.2 ++ r2.2.2)
      | none =>
        let r2 := restore_loop selected snap rest
        (r2.1, name :: r2.2.1, r2.2.2)
    else
      let r1 := snap.check_restore_complete name PvStatus.ok
      let r2 := restore_loop selected r1.1 rest
      (r2.1, r2.2.1, r1.2 ++ r2.2.2)

/-- Result of a `restore_pvs` call: the new coordinator state, the
returned `ActionStatus`, the channels with an in-flight `put` (their
`ok` confirmations arrive later through `run_completions`) and the
aggregate callback invocations that already happened synchronously. -/
structure RestoreResult : Type where
  snap : Snapshot
  status : ActionStatus
  pending : List String
  events : List RestoreEvent

/-- `Snapshot.restore_pvs` on preloaded values (`save_file_path=None`):
reject with `busy` while a restore is running, with `no_data` when
nothing is loaded, with `no_cnct` when not forced and the needed
channels are not all connected; otherwise enter `Running` and drive
every channel as in the source's loop.  `callback` records whether the
caller supplied a completion callback.  The source sets
`restore_started`/`current_restore_forced` before the two rejection
checks and resets `restore_started` on rejection; neither check reads
those fields, so the model tests the checks on the incoming state and
applies the net field effects in each branch. -/
def restore_pvs (snap : Snapshot) (force : Bool) (callback : Bool)
    (selected : List String) : RestoreResult :=
  if snap.restore_started then ⟨snap, ActionStatus.busy, [], []⟩
  else if snap.restore_values_loaded = false then
    ⟨{ snap with restore_started := false, current_restore_forced := force },
     ActionStatus.no_data, [], []⟩
  else if force = false ∧
      ((snap.check_pvs_connected_status (some selected) = false ∧ selected ≠ []) ∨
       (snap.all_connected = false ∧ selected = [])) then
    ⟨{ snap with restore_started := false, current_restore_forced := force },
     ActionStatus.no_cnct, [], []⟩
  else
    let s2 : Snapshot := { snap with restore_started := true,
                                     current_restore_forced := force,
                                     restored_pvs_list := [],
                                     restore_callback := callback }
    let r := restore_loop selected s2 s2.pvs
    ⟨r.1, ActionStatus.ok, r.2.1, r.2.2⟩

end Snapshot

/-!
The save-file codec.  `parse_to_save_file` serializes values with
Python's `json.dumps` (arrays through `.tolist()`), `parse_from_save_file`
decodes value parts with `json.loads`.  The model implements `json.dumps`
(`jsonDumps`) and an independent recursive-descent reader (`parseValue`,
`parseObj`, ...) restricted to the JSON fragment the codec can produce:
null, integers, strings without escape sequences, arrays, and a flat
metadata object.  Python's `json` additionally rejects leading zeros in
numbers and handles floats, escapes and nested objects; `json.dumps`
never emits leading zeros and the claims do not involve floats or
escapes, so the restriction is invisible to the codec claims.
-/

/-- Decimal digit character for `d < 10`. -/
def digitChar (d : Nat) : Char := Char.ofNat (48 + d)

/-- Worker for `natDigits`; the fuel argument only bounds the digit
count, `natDigits` always supplies enough. -/
def natDigitsAux : Nat → Nat → List Char
  | 0, _ => []
  | fuel + 1, n =>
    if n < 10 then [digitChar n]
    else natDigitsAux fuel (n / 10) ++ [digitChar (n % 10)]

/-- Decimal digit string of a natural number, most significant digit
first, no leading zeros (matching `json.dumps` / `repr`). -/
def natDigits (n : Nat) : List Char := natDigitsAux (n + 1) n

/-- Decimal rendering of an integer, as `json.dumps` prints it. -/
def intDumps (i : Int) : String :=
  if i < 0 then String.mk ('-' :: natDigits (-i).toNat)
  else String.mk (natDigits i.toNat)

mutual

/-- Python `json.dumps` on the model's values (strings are quoted,
arrays rendered with the default `", "` separator). -/
def jsonDumps : Value → String
  | Value.null => "null"
  | Value.int i => intDumps i
  | Value.str s => "\"" ++ s ++ "\""
  | Value.arr l => "[" ++ jsonDumpsElems l ++ "]"
termination_by structural v => v

/-- Array elements, the first bare, the rest preceded by `", "`. -/
def jsonDumpsElems : List Value → String
  | [] => ""
  | v :: l => jsonDumps v ++ jsonDumpsRest l
termination_by structural l => l

/-- Remaining array elements, each preceded by `", "`. -/
def jsonDumpsRest : List Value → String
  | [] => ""
  | v :: l => ", " ++ jsonDumps v ++ jsonDumpsRest l
termination_by structural l => l

end

/-- One `"key": value` member of a JSON object, as `json.dumps` prints
it. -/
def jsonDumpsPair (kv : String × Value) : String :=
  "\"" ++ kv.1 ++ "\": " ++ jsonDumps kv.2

/-- Members of a JSON object after the first, each preceded by `", "`. -/
def jsonDumpsMetaRest : List (String × Value) → String
  | [] => ""
  | kv :: rest => ", " ++ jsonDumpsPair kv ++ jsonDumpsMetaRest rest

/-- Python `json.dumps` of the metadata dictionary. -/
def jsonDumpsMeta : List (String × Value) → String
  | [] => "\x7b\x7d"
  | kv :: rest => "\x7b" ++ jsonDumpsPair kv ++ jsonDumpsMetaRest rest ++ "\x7d"

/-- Characters the model allows inside JSON string literals: no quote,
no backslash, no control characters (those require the escape sequences
the model omits). -/
def goodJChar (c : Char) : Bool :=
  c ≠ '"' && c ≠ '\\' && 32 ≤ c.toNat

/-- Strings serializable without escape sequences. -/
def goodJString (s : String) : Bool := s.data.all goodJChar

mutual

/-- Values in the escape-free JSON fragment of the model. -/
def goodValue : Value → Bool
  | Value.null => true
  | Value.int _ => true
  | Value.str s => goodJString s
  | Value.arr l => goodValueList l
termination_by structural v => v

/-- Value lists in the escape-free JSON fragment of the model. -/
def goodValueList : List Value → Bool
  | [] => true
  | v :: l => goodValue v && goodValueList l
termination_by structural l => l

end

/-- Skip the blanks `json` ignores between tokens (the codec only ever
produces spaces). -/
def skipWs : List Char → List Char
  | [] => []
  | c :: rest => if c = ' ' then skipWs rest else c :: rest

/-- Numeric value of a digit string. -/
def digitsToNat (ds : List Char) : Nat :=
  ds.foldl (fun acc c => acc * 10 + (c.toNat - 48)) 0

/-- Parse a maximal run of decimal digits. -/
def parseNat (cs : List Char) : Option (Nat × List Char) :=
  let ds := cs.takeWhile Char.isDigit
  if ds.isEmpty then none
  else some (digitsToNat ds, cs.dropWhile Char.isDigit)

/-- Parse the body of a JSON string literal (after the opening quote),
accumulating seen characters; fails on a backslash (escape sequences
are outside the model) or a raw control character, as `json.loads`
would. -/
def parseJStringAux (acc : List Char) : List Char → Option (String × List Char)
  | [] => none
  | c :: rest =>
    if c = '"' then some (String.mk acc.reverse, rest)
    else if c = '\\' then none
    else if c.toNat < 32 then none
    else parseJStringAux (c :: acc) rest

/-- `true` when the input does not start with a digit (so a preceding
number token cannot be extended). -/
def headNotDigit : List Char → Bool
  | [] => true
  | c :: _ => !c.isDigit

mutual

/-- Recursive-descent parser for one JSON value.  The fuel argument
bounds the nesting depth; `jsonLoads` supplies more than any input can
need. -/
def parseValue : Nat → List Char → Option (Value × List Char)
  | 0, _ => none
  | fuel + 1, cs =>
    match skipWs cs with
    | [] => none
    | c :: rest =>
      if c = '"' then
        match parseJStringAux [] rest with
        | some p => some (Value.str p.1, p.2)
        | none => none
      else if c = '[' then
        match skipWs rest with
        | [] => none
        | c2 :: r2 =>
          if c2 = ']' then some (Value.arr [], r2)
          else
            match parseValue fuel (c2 :: r2) with
            | some (v, r3) =>
              match parseArrRest fuel r3 with
              | some p => some (Value.arr (v :: p.1), p.2)
              | none => none
            | none => none
      else if c = 'n' then
        match rest with
        | 'u' :: 'l' :: 'l' :: r2 => some (Value.null, r2)
        | _ => none
      else if c = '-' then
        match parseNat rest with
        | some p => some (Value.int (-(p.1 : Int)), p.2)
        | none => none
      else if c.isDigit then
        match parseNat (c :: rest) with
        | some p => some (Value.int (p.1 : Int), p.2)
        | none => none
      else none

/-- Parse the rest of a JSON array after one element: either `]` or a
comma followed by the next element. -/
def parseArrRest : Nat → List Char → Option (List Value × List Char)
  | 0, _ => none
  | fuel + 1, cs =>
    match skipWs cs with
    | [] => none
    | c :: rest =>
      if c = ']' then some ([], rest)
      else if c = ',' then
        match parseValue fuel rest with
        | some (v, r2) =>
          match parseArrRest fuel r2 with
          | some p => some (v :: p.1, p.2)
          | none => none
        | none => none
      else none

end

/-- Parse one `"key": value` member of a JSON object. -/
def parsePair (fuel : Nat) (cs : List Char) : Option ((String × Value) × List Char) :=
  match skipWs cs with
  | [] => none
  | c :: rest =>
    if c = '"' then
      match parseJStringAux [] rest with
      | some (k, r2) =>
        match skipWs r2 with
        | [] => none
        | c2 :: r3 =>
          if c2 = ':' then
            match parseValue fuel r3 with
            | some (v, r4) => some ((k, v), r4)
            | none => none
          else none
      | none => none
    else none

/-- Parse the rest of a JSON object after one member: either a closing
brace or a comma followed by the next member. -/
def parseObjRest : Nat → List Char → Option (List (String × Value) × List Char)
  | 0, _ => none
  | fuel + 1, cs =>
    match skipWs cs with
    | [] => none
    | c :: rest =>
      if c = '\x7d' then some ([], rest)
      else if c = ',' then
        match parsePair fuel rest with
        | some (kv, r2) =>
          match parseObjRest fuel r2 with
          | some p => some (kv :: p.1, p.2)
          | none => none
        | none => none
      else none

/-- Parse a flat JSON object. -/
def parseObj (fuel : Nat) (cs : List Char) : Option (List (String × Value) × List Char) :=
  match skipWs cs with
  | [] => none
  | c :: rest =>
    if c = '\x7b' then
      match skipWs rest with
      | [] => none
      | c2 :: r2 =>
        if c2 = '\x7d' then some ([], r2)
        else
          match parsePair fuel (c2 :: r2) with
          | some (kv, r3) =>
            match parseObjRest fuel r3 with
            | some p => some (kv :: p.1, p.2)
            | none => none
          | none => none
    else none

/-- `json.loads` on a value string: one JSON value, nothing but blanks
after it. -/
def jsonLoads (s : String) : Option Value :=
  match parseValue (s.data.length + 1) s.data with
  | some (v, rest) => if skipWs rest = [] then some v else none
  | none => none

/-- `json.loads` on a metadata line: one JSON object, nothing but
blanks after it. -/
def jsonLoadsMeta (s : String) : Option (List (String × Value)) :=
  match parseObj (s.data.length + 1) s.data with
  | some (m, rest) => if skipWs rest = [] then some m else none
  | none => none

/-- Errors collected by `parse_from_save_file` (the strings appended to
the `err` list in the source, abstracted as a datatype): missing
metadata line, undecodable metadata, undecodable value of a named
entry. -/
inductive ParseErr : Type
  | no_meta : ParseErr
  | meta_decode : ParseErr
  | value_decode : String → ParseErr
deriving DecidableEq

/-- One entry line of `parse_to_save_file`: the raw channel name alone
when no value was captured, else the raw name, a comma, and the JSON
dump of the captured value (`saved_value.tolist()` for array channels —
the `Value.arr` case — plain `json.dumps` otherwise). -/
def entryLine : String × Option Value → String
  | (name, none) => name
  | (name, some v) => name ++ "," ++ jsonDumps v

/-- `Snapshot.parse_to_save_file` with `macros=None`: the written file
as a list of lines — a `#`-prefixed JSON metadata header followed by
one line per channel, in dictionary order.  The file-system and symlink
side effects of the source are abstracted away. -/
def parse_to_save_file (entries : List (String × Option Value))
    (meta : List (String × Value)) : List String :=
  ("#" ++ jsonDumpsMeta meta) :: entries.map entryLine

/-- Python `str.strip` on a line: drop leading and trailing
whitespace. -/
def stripList (cs : List Char) : List Char :=
  ((cs.dropWhile Char.isWhitespace).reverse.dropWhile Char.isWhitespace).reverse

/-- `line.split(',', 1)`: split at the first comma only, reporting
whether a comma was found. -/
def splitFirstComma : List Char → List Char × Option (List Char)
  | [] => ([], none)
  | c :: rest =>
    if c = ',' then ([], some rest)
    else
      let p := splitFirstComma rest
      (c :: p.1, p.2)

/-- Python dictionary update `d[k] = v`: overwrite in place when the
key exists (keeping its original position), append otherwise. -/
def assocSet : List (String × Option Value) → String → Option Value →
    List (String × Option Value)
  | [], k, v => [(k, v)]
  | (k', v') :: rest, k, v =>
    if k' = k then (k', v) :: rest else (k', v') :: assocSet rest k v

/-- Intermediate state of the `parse_from_save_file` loop. -/
structure ReadState : Type where
  saved_pvs : List (String × Option Value)
  meta_data : List (String × Value)
  err : List ParseErr
  meta_loaded : Bool

/-- One iteration of the `parse_from_save_file` loop: the first
`#`-line is decoded as metadata; any other non-blank, non-`#` line is
stripped, split at the first comma, and its value part (when present)
JSON-decoded, a failure recording the entry with an absent value plus a
decode error. -/
def read_line (st : ReadState) (line : String) : ReadState :=
  if line.data.head? = some '#' ∧ st.meta_loaded = false then
    match jsonLoadsMeta (String.mk line.data.tail) with
    | some m => { st with meta_data := m, meta_loaded := true }
    | none => { st with err := st.err ++ [ParseErr.meta_decode], meta_loaded := true }
  else if stripList line.data ≠ [] ∧ line.data.head? ≠ some '#' then
    let sl := stripList line.data
    let sp := splitFirstComma sl
    match sp.2 with
    | some valCs =>
      match jsonLoads (String.mk valCs) with
      | some v => { st with saved_pvs := assocSet st.saved_pvs (String.mk sp.1) (some v) }
      | none =>
        { st with saved_pvs := assocSet st.saved_pvs (String.mk sp.1) none,
                  err := st.err ++ [ParseErr.value_decode (String.mk sp.1)] }
    | none => { st with saved_pvs := assocSet st.saved_pvs (String.mk sp.1) none }
  else st

/-- The parsed content of a save file. -/
structure ParsedFile : Type where
  saved_pvs : List (String × Option Value)
  meta_data : List (String × Value)
  err : List ParseErr

/-- `Snapshot.parse_from_save_file` on the file's lines: fold the
line reader over the file, then report a missing-metadata error first
in the list when no `#` header was seen. -/
def parse_from_save_file (lines : List String) : ParsedFile :=
  let st := lines.foldl read_line ⟨[], [], [], false⟩
  if st.meta_loaded = false then ⟨st.saved_pvs, st.meta_data, ParseErr.no_meta :: st.err⟩
  else ⟨st.saved_pvs, st.meta_data, st.err⟩

namespace Snapshot

/-- `Snapshot.save_pvs` with the caller's metadata already assembled
(the source stamps `save_time`/`req_file_name` into `kw` — environment
inputs the model takes as the `meta` parameter).  Fails fast with
`no_cnct` and an empty status mapping when not forced and not all
channels are connected; otherwise captures every channel with `save_pv`
and writes the file, returned as `some` list of lines. -/
def save_pvs (snap : Snapshot) (force : Bool) (meta : List (String × Value)) :
    Snapshot × ActionStatus × List (String × PvStatus) × Option (List String) :=
  if force = false ∧ snap.all_connected = false then
    (snap, ActionStatus.no_cnct, [], none)
  else
    let results := snap.pvs.map (fun p => (p.1, p.2.save_pv))
    let newPvs := results.map (fun r => (r.1, r.2.1))
    let status := results.map (fun r => (r.1, r.2.2))
    let lines := parse_to_save_file (newPvs.map (fun p => (p.2.pvname_raw, p.2.saved_value))) meta
    ({ snap with pvs := newPvs }, ActionStatus.ok, status, some lines)

end Snapshot

/-!
Fuel measures for the JSON parser: `vfuel v` bounds the fuel
`parseValue` needs on a dump of `v`, `lfuel l` the fuel `parseArrRest`
needs on the dumped tail of an array.
-/

mutual

/-- Fuel needed by `parseValue` on the dump of a value. -/
def vfuel : Value → Nat
  | Value.null => 1
  | Value.int _ => 1
  | Value.str _ => 1
  | Value.arr l => lfuel l
termination_by structural v => v

/-- Fuel needed by `parseArrRest` on the dumped tail of an array. -/
def lfuel : List Value → Nat
  | [] => 1
  | v :: l => 1 + max (vfuel v) (lfuel l)
termination_by structural l => l

end

/-- Fuel needed by `parseObjRest` on the dumped tail of a metadata
object. -/
def ofuel : List (String × Value) → Nat
  | [] => 1
  | kv :: rest => 1 + max (vfuel kv.2) (ofuel rest)

/-- A channel name the save-file format can faithfully carry on one
line: non-empty, no comma (the name/value separator), no whitespace
(stripping must not alter it) and not starting with `#` (would look
like a comment). -/
def goodName (s : String) : Bool :=
  !s.data.isEmpty &&
  s.data.all (fun c => c ≠ ',' && !c.isWhitespace && c ≠ '#')

/-- Metadata dictionaries in the escape-free fragment: every key an
escape-free string, every value a good value. -/
def goodMeta (meta : List (String × Value)) : Bool :=
  meta.all (fun kv => goodJString kv.1 && goodValue kv.2)

/-- The array normalization `save_pv` applies to the captured value of
an array channel, spelled out for the specification-side description of
capture. -/
def normalize_capture (is_array : Bool) (v : Option Value) : Option Value :=
  if is_array then
    if npOptSize v = 0 then none
    else if npOptSize v = 1 then some (Value.arr [npBoxElem v])
    else v
  else v

/-- Specification-side description of capture (the amended §4.1
`capture()` contract): `noAccess` whenever not connected or lacking
read access, clearing the captured value only in the not-connected
case; otherwise store the latest monitored value, normalized for array
channels, and report `noValue` exactly when the raw monitored value is
absent. -/
def capture_spec (pv : SnapshotPv) : SnapshotPv × PvStatus :=
  if pv.connected = false then ({ pv with saved_value := none }, PvStatus.access_err)
  else if pv.read_access = false then (pv, PvStatus.access_err)
  else
    ({ pv with saved_value := normalize_capture pv.is_array pv.monitor_value },
     if pv.monitor_value.isNone then PvStatus.no_value else PvStatus.ok)

namespace Snapshot

/-- The synchronous outcome `restore_pvs` records for a channel:
unselected channels get the synthetic `ok`, participating channels
their immediate `restore_pv` outcome (`none` when a `put` goes out). -/
def sync_status (selected : List String) (name : String) (pv : SnapshotPv) :
    Option PvStatus :=
  if participates selected name then pv.restore_pv_immediate else some PvStatus.ok

/-- The per-channel outcomes recorded synchronously during the
`restore_pvs` loop, in channel order. -/
def sync_pairs (selected : List String) (l : List (String × SnapshotPv)) :
    List (String × PvStatus) :=
  l.filterMap (fun p => (sync_status selected p.1 p.2).map (fun st => (p.1, st)))

/-- The channels whose `put` is left in flight by the `restore_pvs`
loop, in channel order. -/
def pend_names (selected : List String) (l : List (String × SnapshotPv)) :
    List String :=
  l.filterMap (fun p => if (sync_status selected p.1 p.2).isNone then some p.1 else none)

end Snapshot

/-!
Concrete fixtures used by the claim witnesses and counterexamples.
-/

/-- A connected channel whose read access is denied, with a previously
captured value. -/
def pvC5 : SnapshotPv :=
  ⟨"C5:RAW", true, false, true, false, some (Value.int 7), some (Value.int 7), none, false⟩

/-- Connected channel `A` with a loaded restore value. -/
def pvC4A : SnapshotPv :=
  ⟨"A", true, true, true, false, some (Value.int 1), none, some (Value.int 2), false⟩

/-- Disconnected channel `B` with a loaded restore value. -/
def pvC4B : SnapshotPv :=
  ⟨"B", false, true, true, false, none, none, some (Value.int 3), true⟩

/-- A two-channel set `A`/`B` with `B` disconnected and restore values
loaded. -/
def snapC4 : Snapshot :=
  ⟨[("A", pvC4A), ("B", pvC4B)], false, true, false, false, [], false⟩

/-- A one-channel set used to exercise the connectivity aggregate: the
channel is currently disconnected and the aggregate is false. -/
def snapC2 : Snapshot :=
  ⟨[("A", ⟨"A", false, true, true, false, none, none, none, true⟩)],
   false, false, false, false, [], false⟩

/-- A coordinator observed in the middle of a running restore: one
channel, its completion still pending, a caller callback registered. -/
def snapBusy : Snapshot :=
  ⟨[("A", pvC4A)], true, true, true, false, [], true⟩

/-- A channel whose live value equals its loaded restore value. -/
def pvC8 : SnapshotPv :=
  ⟨"E", true, true, true, false, some (Value.int 5), none, some (Value.int 5), false⟩

/-- A one-channel set where the live value already matches the desired
value. -/
def snapC8 : Snapshot :=
  ⟨[("E", pvC8)], false, true, true, false, [], false⟩

/-- A channel whose live value differs from its loaded restore value,
so a restore issues an asynchronous write. -/
def pvC1A : SnapshotPv :=
  ⟨"A", true, true, true, false, some (Value.int 2), none, some (Value.int 1), false⟩

/-- A two-channel set for the completion-accounting witness: `A` needs
a write, `B` will be outside the selection. -/
def snapC1w : Snapshot :=
  ⟨[("A", pvC1A), ("B", pvC4A)], false, true, true, false, [], false⟩

/-- A channel set with no channels at all but with restore values
marked as loaded. -/
def snapC1empty : Snapshot :=
  ⟨[], false, true, false, false, [], false⟩

/-- A one-channel set whose aggregate connectivity flag is false. -/
def snapC10 : Snapshot :=
  ⟨[("A", pvC4B)], false, false, false, false, [], false⟩

/-- A concrete record with a scalar, a string, an array and an absent
value. -/
def entriesC6 : List (String × Option Value) :=
  [("A", some (Value.int 3)), ("B", some (Value.str "hi")),
   ("C", some (Value.arr [Value.int 1, Value.int 2])), ("D", none)]

/-- Concrete metadata with a scalar and a string field. -/
def metaC6 : List (String × Value) :=
  [("save_time", Value.int 123), ("comment", Value.str "c")]

/-!
Theorems.  Helper lemmas come first, then one theorem per claim (plus
its witness or counterexample where required).
-/

namespace Snapshot

theorem check_restore_complete_restored (s : Snapshot) (n : String) (st : PvStatus) :
    (s.check_restore_complete n st).1.restored_pvs_list =
      s.restored_pvs_list ++ [(n, st)] := by
  unfold check_restore_complete
  split <;> rfl

theorem check_restore_complete_pvs (s : Snapshot) (n : String) (st : PvStatus) :
    (s.check_restore_complete n st).1.pvs = s.pvs := by
  unfold check_restore_complete
  split <;> rfl

theorem check_restore_complete_forced (s : Snapshot) (n : String) (st : PvStatus) :
    (s.check_restore_complete n st).1.current_restore_forced =
      s.current_restore_forced := by
  unfold check_restore_complete
  split <;> rfl

theorem check_restore_complete_not_fire (s : Snapshot) (n : String) (st : PvStatus)
    (h : s.restored_pvs_list.length + 1 ≠ s.pvs.length) :
    s.check_restore_complete n st =
      ({ s with restored_pvs_list := s.restored_pvs_list ++ [(n, st)] }, []) := by
  unfold check_restore_complete
  rw [if_neg]
  intro hc
  exact h (by simpa using hc.1)

theorem check_restore_complete_fire (s : Snapshot) (n : String) (st : PvStatus)
    (h : s.restored_pvs_list.length + 1 = s.pvs.length)
    (hcb : s.restore_callback = true) :
    s.check_restore_complete n st =
      ({ s with restored_pvs_list := s.restored_pvs_list ++ [(n, st)],
                restore_started := false, restore_callback := false },
       [⟨s.restored_pvs_list ++ [(n, st)], s.current_restore_forced⟩]) := by
  unfold check_restore_complete
  rw [if_pos ⟨by simpa using h, hcb⟩]

theorem run_completions_restored (l : List (String × PvStatus)) :
    ∀ s : Snapshot, (s.run_completions l).1.restored_pvs_list =
      s.restored_pvs_list ++ l := by
  induction l with
  | nil => intro s; simp [run_completions]
  | cons p rest ih =>
    intro s
    obtain ⟨n, st⟩ := p
    simp only [run_completions]
    rw [ih, check_restore_complete_restored]
    simp

theorem run_completions_pvs (l : List (String × PvStatus)) :
    ∀ s : Snapshot, (s.run_completions l).1.pvs = s.pvs := by
  induction l with
  | nil => intro s; simp [run_completions]
  | cons p rest ih =>
    intro s
    obtain ⟨n, st⟩ := p
    simp only [run_completions]
    rw [ih, check_restore_complete_pvs]

theorem run_completions_append (l1 l2 : List (String × PvStatus)) :
    ∀ s : Snapshot, s.run_completions (l1 ++ l2) =
      (((s.run_completions l1).1.run_completions l2).1,
       (s.run_completions l1).2 ++ ((s.run_completions l1).1.run_completions l2).2) := by
  induction l1 with
  | nil => intro s; simp [run_completions]
  | cons p rest ih =>
    intro s
    obtain ⟨n, st⟩ := p
    have hc : ((n, st) :: rest) ++ l2 = (n, st) :: (rest ++ l2) := rfl
    rw [hc]
    simp only [run_completions]
    rw [ih]
    simp [List.append_assoc]

theorem run_completions_fire (l : List (String × PvStatus)) :
    ∀ s : Snapshot, s.restore_callback = true →
    s.restored_pvs_list.length + l.length = s.pvs.length →
    l ≠ [] →
    (s.run_completions l).2 =
      [⟨s.restored_pvs_list ++ l, s.current_restore_forced⟩] ∧
    (s.run_completions l).1.restore_started = false ∧
    (s.run_completions l).1.restore_callback = false := by
  induction l with
  | nil => intro s _ _ hne; exact absurd rfl hne
  | cons p rest ih =>
    intro s hcb hlen _
    obtain ⟨n, st⟩ := p
    by_cases hr : rest = []
    · subst hr
      have hfire : s.restored_pvs_list.length + 1 = s.pvs.length := by
        simpa using hlen
      simp only [run_completions]
      rw [check_restore_complete_fire s n st hfire hcb]
      simp [run_completions]
    · have hrest1 : 1 ≤ rest.length := by
        cases rest with
        | nil => exact absurd rfl hr
        | cons a t => simp
      have hlen' : s.restored_pvs_list.length + (1 + rest.length) = s.pvs.length := by
        simpa [Nat.add_comm, Nat.add_assoc] using hlen
      have hlt : s.restored_pvs_list.length + 1 ≠ s.pvs.length := by omega
      simp only [run_completions]
      rw [check_restore_complete_not_fire s n st hlt]
      have h2 : ({ s with restored_pvs_list := s.restored_pvs_list ++ [(n, st)]
                 } : Snapshot).restored_pvs_list.length + rest.length =
          ({ s with restored_pvs_list := s.restored_pvs_list ++ [(n, st)]
           } : Snapshot).pvs.length := by
        simp [List.length_append]
        omega
      obtain ⟨e1, e2, e3⟩ :=
        ih ({ s with restored_pvs_list := s.restored_pvs_list ++ [(n, st)] }) hcb h2 hr
      refine ⟨?_, e2, e3⟩
      rw [e1]
      simp [List.append_assoc]

end Snapshot

/-- Claim C10: with `force=False` and not all channels connected,
`Snapshot.save_pvs` fails fast atomically — status `no_cnct`, an empty
per-channel status mapping, no channel captured (the state is
unchanged), and nothing written to disk. -/
theorem save_pvs_fail_fast (snap : Snapshot) (meta : List (String × Value))
    (h : snap.all_connected = false) :
    snap.save_pvs false meta = (snap, ActionStatus.no_cnct, [], none) := by
  unfold Snapshot.save_pvs
  rw [if_pos ⟨rfl, h⟩]

/-- Witness for C10 at a concrete disconnected channel set. -/
theorem save_pvs_fail_fast_witness :
    snapC10.all_connected = false ∧
    snapC10.save_pvs false [] = (snapC10, ActionStatus.no_cnct, [], none) :=
  ⟨rfl, save_pvs_fail_fast snapC10 [] rfl⟩

/-- Claim C4: on the two-channel set `A`/`B` with `B` disconnected, a
non-forced unselective restore returns `no_cnct`, attempts no channel
write, leaves the coordinator idle, and the diagnostic listing names
`B`. -/
theorem restore_not_connected_scenario :
    (snapC4.restore_pvs false true []).status = ActionStatus.no_cnct ∧
    (snapC4.restore_pvs false true []).pending = [] ∧
    (snapC4.restore_pvs false true []).events = [] ∧
    (snapC4.restore_pvs false true []).snap.restore_started = false ∧
    snapC4.get_not_connected_pvs_names [] = ["B"] :=
  ⟨rfl, rfl, rfl, rfl, rfl⟩

/-- Claim C5 (amended): `save_pv` coincides with the capture contract
that returns `noAccess` when not connected (clearing the capture) or
when read access is denied (leaving the previous capture in place), and
otherwise captures the normalized monitored value, reporting `noValue`
exactly when the raw monitored value is absent. -/
theorem save_pv_matches_capture_spec (pv : SnapshotPv) :
    pv.save_pv = capture_spec pv := by
  unfold SnapshotPv.save_pv capture_spec normalize_capture
  by_cases hc : pv.connected <;> by_cases hr : pv.read_access <;>
    simp [hc, hr]

/-- Counterexample to claim C5 as stated: a connected channel whose
read access is denied returns `access_err` but keeps its previously
captured value — `save_pv` does not clear `saved_value` on a pure
read-access error. -/
theorem save_pv_access_err_keeps_capture :
    (pvC5.save_pv).2 = PvStatus.access_err ∧
    (pvC5.save_pv).1.saved_value = some (Value.int 7) ∧
    (pvC5.save_pv).1.saved_value.isSome = true :=
  ⟨rfl, rfl, rfl⟩

/-- Claim C3: calling `restore_pvs` while a restore is running returns
`busy` without touching any state, and the running restore's pending
completions still fire the aggregate callback exactly once. -/
theorem restore_busy_spec (snap : Snapshot) (force cb : Bool)
    (sel pend : List String)
    (h1 : snap.restore_started = true)
    (h2 : snap.restore_callback = true)
    (h3 : snap.restored_pvs_list.length + pend.length = snap.pvs.length)
    (h4 : pend ≠ []) :
    snap.restore_pvs force cb sel = ⟨snap, ActionStatus.busy, [], []⟩ ∧
    (snap.run_completions (pend.map (fun n => (n, PvStatus.ok)))).2 =
      [⟨snap.restored_pvs_list ++ pend.map (fun n => (n, PvStatus.ok)),
        snap.current_restore_forced⟩] ∧
    (snap.run_completions (pend.map (fun n => (n, PvStatus.ok)))).1.restore_started
      = false := by
  constructor
  · unfold Snapshot.restore_pvs
    rw [if_pos h1]
  · have hmapne : pend.map (fun n => (n, PvStatus.ok)) ≠ [] := by
      cases pend with
      | nil => exact absurd rfl h4
      | cons a t => simp
    have := Snapshot.run_completions_fire (pend.map (fun n => (n, PvStatus.ok)))
      snap h2 (by simpa using h3) hmapne
    exact ⟨this.1, this.2.1⟩

/-- Witness for C3 on a concrete mid-restore coordinator. -/
theorem restore_busy_spec_witness :
    snapBusy.restore_started = true ∧ snapBusy.restore_callback = true ∧
    snapBusy.restored_pvs_list.length + (["A"] : List String).length =
      snapBusy.pvs.length ∧
    (["A"] : List String) ≠ [] ∧
    (snapBusy.restore_pvs false true [] = ⟨snapBusy, ActionStatus.busy, [], []⟩ ∧
     (snapBusy.run_completions ((["A"] : List String).map (fun n => (n, PvStatus.ok)))).2 =
       [⟨snapBusy.restored_pvs_list ++
           (["A"] : List String).map (fun n => (n, PvStatus.ok)),
         snapBusy.current_restore_forced⟩] ∧
     (snapBusy.run_completions ((["A"] : List String).map
         (fun n => (n, PvStatus.ok)))).1.restore_started = false) :=
  ⟨rfl, rfl, rfl, by decide,
   restore_busy_spec snapBusy false true [] ["A"] rfl rfl rfl (by decide)⟩

namespace Snapshot

theorem lookupPv_setCnctLost (l : List (String × SnapshotPv)) (name : String)
    (b : Bool) :
    lookupPv (setCnctLost l name b) name =
      (lookupPv l name).map (fun pv => { pv with cnct_lost := b }) := by
  induction l with
  | nil => rfl
  | cons p rest ih =>
    obtain ⟨k, v⟩ := p
    by_cases hk : k = name <;> simp [setCnctLost, lookupPv, hk, ih]

theorem all_cnct_setConnected (l : List (String × SnapshotPv)) (name : String)
    (b : Bool) :
    (setConnected l name b).all (fun p => !p.2.cnct_lost) =
      l.all (fun p => !p.2.cnct_lost) := by
  induction l with
  | nil => rfl
  | cons p rest ih =>
    obtain ⟨k, v⟩ := p
    by_cases hk : k = name <;> simp [setConnected, hk, ih]

theorem connection_event_lost (snap : Snapshot) (name : String) (pv : SnapshotPv)
    (hpv : lookupPv snap.pvs name = some pv) :
    snap.connection_event name false =
      ({ snap with pvs := setConnected (setCnctLost snap.pvs name true) name false,
                   all_connected := false }, false) := by
  have hset : lookupPv (setCnctLost snap.pvs name true) name =
      some { pv with cnct_lost := true } := by
    rw [lookupPv_setCnctLost, hpv]; rfl
  simp only [connection_event, update_all_connected_status, Option.bind, Bool.not_false]
  rw [hset]
  simp

theorem connection_event_gain_rescan (snap : Snapshot) (name : String)
    (pv : SnapshotPv) (hpv : lookupPv snap.pvs name = some pv)
    (hag : snap.all_connected = false) :
    snap.connection_event name true =
      ({ snap with pvs := setConnected (setCnctLost snap.pvs name false) name true,
                   all_connected :=
                     check_pvs_connected_status
                       { snap with pvs := setCnctLost snap.pvs name false } none },
       true) := by
  have hset : lookupPv (setCnctLost snap.pvs name false) name =
      some { pv with cnct_lost := false } := by
    rw [lookupPv_setCnctLost, hpv]; rfl
  simp only [connection_event, update_all_connected_status, Option.bind, Bool.not_true]
  rw [hset]
  simp [hag]

theorem connection_event_gain_stable (snap : Snapshot) (name : String)
    (pv : SnapshotPv) (hpv : lookupPv snap.pvs name = some pv)
    (hag : snap.all_connected = true) :
    snap.connection_event name true =
      ({ snap with pvs := setConnected (setCnctLost snap.pvs name false) name true },
       false) := by
  have hset : lookupPv (setCnctLost snap.pvs name false) name =
      some { pv with cnct_lost := false } := by
    rw [lookupPv_setCnctLost, hpv]; rfl
  simp only [connection_event, update_all_connected_status, Option.bind, Bool.not_true]
  rw [hset]
  simp [hag]

end Snapshot

/-- Claim C2: after a connection callback is processed through
`update_all_connected_status`, (i) a lost connection immediately forces
`all_connected` to false, (ii) the aggregate can only turn from false
to true through a full `check_pvs_connected_status` scan that confirms
no channel has `cnct_lost` set, (iii) a gained connection triggers that
full scan when the aggregate was false, and (iv) does not trigger it
(leaving the aggregate true) when the aggregate was already true. -/
theorem connectivity_aggregate (snap : Snapshot) (name : String) (conn : Bool)
    (h : (Snapshot.lookupPv snap.pvs name).isSome = true) :
    (conn = false → (snap.connection_event name conn).1.all_connected = false) ∧
    (snap.all_connected = false →
      (snap.connection_event name conn).1.all_connected = true →
      (snap.connection_event name conn).2 = true ∧
      (snap.connection_event name conn).1.check_pvs_connected_status none = true) ∧
    (conn = true → snap.all_connected = false →
      (snap.connection_event name conn).2 = true) ∧
    (conn = true → snap.all_connected = true →
      (snap.connection_event name conn).2 = false ∧
      (snap.connection_event name conn).1.all_connected = true) := by
  obtain ⟨pv, hpv⟩ := Option.isSome_iff_exists.mp h
  cases conn with
  | false =>
    rw [Snapshot.connection_event_lost snap name pv hpv]
    refine ⟨fun _ => rfl, fun _ htrue => ?_, fun hc _ => ?_, fun hc _ => ?_⟩
    · exact absurd htrue (by simp)
    · exact absurd hc (by simp)
    · exact absurd hc (by simp)
  | true =>
    by_cases hag : snap.all_connected = true
    · rw [Snapshot.connection_event_gain_stable snap name pv hpv hag]
      refine ⟨fun hc => ?_, fun hfalse _ => ?_, fun _ hfalse => ?_, fun _ _ => ⟨rfl, hag⟩⟩
      · exact absurd hc (by simp)
      · exact absurd (hag.symm.trans hfalse) (by simp)
      · exact absurd (hag.symm.trans hfalse) (by simp)
    · have hag' : snap.all_connected = false := by
        cases hh : snap.all_connected
        · rfl
        · exact absurd hh hag
      rw [Snapshot.connection_event_gain_rescan snap name pv hpv hag']
      refine ⟨fun hc => ?_, fun _ htrue => ⟨rfl, ?_⟩, fun _ _ => rfl,
              fun _ htrue => absurd htrue hag⟩
      · exact absurd hc (by simp)
      · dsimp only at htrue ⊢
        simp only [Snapshot.check_pvs_connected_status] at htrue ⊢
        rw [Snapshot.all_cnct_setConnected]
        exact htrue

/-- Witness for C2 on a concrete one-channel set regaining its
connection. -/
theorem connectivity_aggregate_witness :
    (Snapshot.lookupPv snapC2.pvs "A").isSome = true ∧
    ((true = false → (snapC2.connection_event "A" true).1.all_connected = false) ∧
     (snapC2.all_connected = false →
       (snapC2.connection_event "A" true).1.all_connected = true →
       (snapC2.connection_event "A" true).2 = true ∧
       (snapC2.connection_event "A" true).1.check_pvs_connected_status none = true) ∧
     (true = true → snapC2.all_connected = false →
       (snapC2.connection_event "A" true).2 = true) ∧
     (true = true → snapC2.all_connected = true →
       (snapC2.connection_event "A" true).2 = false ∧
       (snapC2.connection_event "A" true).1.all_connected = true)) :=
  ⟨rfl, connectivity_aggregate snapC2 "A" true rfl⟩

namespace Snapshot

theorem sync_pairs_cons_some (sel : List String) (name : String) (pv : SnapshotPv)
    (rest : List (String × SnapshotPv)) (st : PvStatus)
    (h : sync_status sel name pv = some st) :
    sync_pairs sel ((name, pv) :: rest) = (name, st) :: sync_pairs sel rest := by
  simp [sync_pairs, h]

theorem sync_pairs_cons_none (sel : List String) (name : String) (pv : SnapshotPv)
    (rest : List (String × SnapshotPv))
    (h : sync_status sel name pv = none) :
    sync_pairs sel ((name, pv) :: rest) = sync_pairs sel rest := by
  simp [sync_pairs, h]

theorem pend_names_cons_some (sel : List String) (name : String) (pv : SnapshotPv)
    (rest : List (String × SnapshotPv)) (st : PvStatus)
    (h : sync_status sel name pv = some st) :
    pend_names sel ((name, pv) :: rest) = pend_names sel rest := by
  simp [pend_names, h]

theorem pend_names_cons_none (sel : List String) (name : String) (pv : SnapshotPv)
    (rest : List (String × SnapshotPv))
    (h : sync_status sel name pv = none) :
    pend_names sel ((name, pv) :: rest) = name :: pend_names sel rest := by
  simp [pend_names, h]

theorem restore_loop_cons (sel : List String) (s : Snapshot) (name : String)
    (pv : SnapshotPv) (rest : List (String × SnapshotPv)) :
    restore_loop sel s ((name, pv) :: rest) =
      match sync_status sel name pv with
      | some st =>
        ((restore_loop sel (s.check_restore_complete name st).1 rest).1,
         (restore_loop sel (s.check_restore_complete name st).1 rest).2.1,
         (s.check_restore_complete name st).2 ++
           (restore_loop sel (s.check_restore_complete name st).1 rest).2.2)
      | none =>
        ((restore_loop sel s rest).1,
         name :: (restore_loop sel s rest).2.1,
         (restore_loop sel s rest).2.2) := by
  by_cases hp : participates sel name = true
  · simp only [restore_loop, hp, if_true, sync_status]
  · have hp' : participates sel name = false := by
      cases hh : participates sel name
      · rfl
      · exact absurd hh hp
    simp only [restore_loop, sync_status, hp', Bool.false_eq_true, if_false]

theorem restore_loop_eq_run (sel : List String) (l : List (String × SnapshotPv)) :
    ∀ s : Snapshot, restore_loop sel s l =
      ((s.run_completions (sync_pairs sel l)).1, pend_names sel l,
       (s.run_completions (sync_pairs sel l)).2) := by
  induction l with
  | nil => intro s; simp [restore_loop, sync_pairs, pend_names, run_completions]
  | cons p rest ih =>
    intro s
    obtain ⟨name, pv⟩ := p
    rw [restore_loop_cons]
    cases hss : sync_status sel name pv with
    | some st =>
      rw [sync_pairs_cons_some sel name pv rest st hss,
          pend_names_cons_some sel name pv rest st hss]
      simp only [run_completions]
      rw [ih]
    | none =>
      rw [sync_pairs_cons_none sel name pv rest hss,
          pend_names_cons_none sel name pv rest hss]
      rw [ih]

theorem sync_pend_length (sel : List String) (l : List (String × SnapshotPv)) :
    (sync_pairs sel l).length + (pend_names sel l).length = l.length := by
  induction l with
  | nil => rfl
  | cons p rest ih =>
    obtain ⟨name, pv⟩ := p
    cases hss : sync_status sel name pv with
    | some st =>
      rw [sync_pairs_cons_some sel name pv rest st hss,
          pend_names_cons_some sel name pv rest st hss]
      simp only [List.length_cons]
      omega
    | none =>
      rw [sync_pairs_cons_none sel name pv rest hss,
          pend_names_cons_none sel name pv rest hss]
      simp only [List.length_cons]
      omega

theorem sync_pend_perm (sel : List String) (l : List (String × SnapshotPv)) :
    ((sync_pairs sel l).map Prod.fst ++ pend_names sel l).Perm
      (l.map Prod.fst) := by
  induction l with
  | nil => simp [sync_pairs, pend_names]
  | cons p rest ih =>
    obtain ⟨name, pv⟩ := p
    cases hss : sync_status sel name pv with
    | some st =>
      rw [sync_pairs_cons_some sel name pv rest st hss,
          pend_names_cons_some sel name pv rest st hss]
      simpa using ih.cons name
    | none =>
      rw [sync_pairs_cons_none sel name pv rest hss,
          pend_names_cons_none sel name pv rest hss]
      exact List.perm_middle.trans (by simpa using ih.cons name)

theorem restore_pvs_ok (snap : Snapshot) (force cb : Bool) (sel : List String)
    (h1 : snap.restore_started = false)
    (h2 : snap.restore_values_loaded = true)
    (h3 : ¬(force = false ∧
        ((snap.check_pvs_connected_status (some sel) = false ∧ sel ≠ []) ∨
         (snap.all_connected = false ∧ sel = [])))) :
    snap.restore_pvs force cb sel =
      ⟨(restore_loop sel
          { snap with restore_started := true, current_restore_forced := force,
                      restored_pvs_list := [], restore_callback := cb } snap.pvs).1,
       ActionStatus.ok,
       (restore_loop sel
          { snap with restore_started := true, current_restore_forced := force,
                      restored_pvs_list := [], restore_callback := cb } snap.pvs).2.1,
       (restore_loop sel
          { snap with restore_started := true, current_restore_forced := force,
                      restored_pvs_list := [], restore_callback := cb } snap.pvs).2.2⟩ := by
  unfold restore_pvs
  rw [if_neg (by simp [h1]), if_neg (by simp [h2]), if_neg h3]

end Snapshot

theorem restore_pv_immediate_equal (pv : SnapshotPv)
    (hc : pv.connected = true) (hw : pv.write_access = true)
    (hv : pv.value_to_restore.isSome = true)
    (hcomp : pv.compare pv.monitor_value = true) :
    pv.restore_pv_immediate = some PvStatus.equal := by
  obtain ⟨d, hd⟩ := Option.isSome_iff_exists.mp hv
  simp [SnapshotPv.restore_pv_immediate, hc, hw, hd, hcomp]

theorem sync_all_equal (sel : List String) (l : List (String × SnapshotPv))
    (h : ∀ p ∈ l, Snapshot.sync_status sel p.1 p.2 = some PvStatus.equal) :
    Snapshot.sync_pairs sel l = l.map (fun p => (p.1, PvStatus.equal)) ∧
    Snapshot.pend_names sel l = [] := by
  induction l with
  | nil => exact ⟨rfl, rfl⟩
  | cons p rest ih =>
    obtain ⟨name, pv⟩ := p
    have hh := h (name, pv) (by simp)
    obtain ⟨e1, e2⟩ := ih (fun q hq => h q (by simp [hq]))
    rw [Snapshot.sync_pairs_cons_some _ _ _ _ _ hh,
        Snapshot.pend_names_cons_some _ _ _ _ _ hh, e1, e2]
    simp

/-- Claim C8: a restore in which every participating channel is
connected, writable, and whose live value already equals its loaded
desired value (array-aware comparison) records outcome `equal` for
every channel and never issues a transport write. -/
theorem restore_idempotent_on_equal (snap : Snapshot) (force : Bool)
    (hstart : snap.restore_started = false)
    (hloaded : snap.restore_values_loaded = true)
    (hconn : snap.all_connected = true)
    (heq : ∀ p ∈ snap.pvs, p.2.connected = true ∧ p.2.write_access = true ∧
        p.2.value_to_restore.isSome = true ∧
        p.2.compare p.2.monitor_value = true) :
    (snap.restore_pvs force true []).status = ActionStatus.ok ∧
    (snap.restore_pvs force true []).pending = [] ∧
    (snap.restore_pvs force true []).snap.restored_pvs_list =
      snap.pvs.map (fun p => (p.1, PvStatus.equal)) := by
  have hguard : ¬(force = false ∧
      ((snap.check_pvs_connected_status (some []) = false ∧
        ([] : List String) ≠ []) ∨
       (snap.all_connected = false ∧ ([] : List String) = []))) := by
    rintro ⟨_, ⟨_, hne⟩ | ⟨hc, _⟩⟩
    · exact hne rfl
    · rw [hconn] at hc; cases hc
  rw [Snapshot.restore_pvs_ok snap force true [] hstart hloaded hguard]
  have hall : ∀ p ∈ snap.pvs, Snapshot.sync_status [] p.1 p.2 =
      some PvStatus.equal := by
    intro p hp
    obtain ⟨hc, hw, hv, hcomp⟩ := heq p hp
    simp [Snapshot.sync_status, Snapshot.participates,
          restore_pv_immediate_equal p.2 hc hw hv hcomp]
  obtain ⟨e1, e2⟩ := sync_all_equal [] snap.pvs hall
  rw [Snapshot.restore_loop_eq_run]
  refine ⟨rfl, by simpa using e2, ?_⟩
  show (Snapshot.run_completions _ (Snapshot.sync_pairs [] snap.pvs)).1.restored_pvs_list = _
  rw [Snapshot.run_completions_restored, e1]
  rfl

/-- Witness for C8 on a concrete one-channel set whose live value
matches the desired value. -/
theorem restore_idempotent_on_equal_witness :
    snapC8.restore_started = false ∧ snapC8.restore_values_loaded = true ∧
    snapC8.all_connected = true ∧
    (∀ p ∈ snapC8.pvs, p.2.connected = true ∧ p.2.write_access = true ∧
        p.2.value_to_restore.isSome = true ∧
        p.2.compare p.2.monitor_value = true) ∧
    ((snapC8.restore_pvs false true []).status = ActionStatus.ok ∧
     (snapC8.restore_pvs false true []).pending = [] ∧
     (snapC8.restore_pvs false true []).snap.restored_pvs_list =
       snapC8.pvs.map (fun p => (p.1, PvStatus.equal))) :=
  ⟨rfl, rfl, rfl, by decide,
   restore_idempotent_on_equal snapC8 false rfl rfl rfl (by decide)⟩

theorem map_fst_pair_ok (l : List String) :
    (l.map (fun n => (n, PvStatus.ok))).map Prod.fst = l := by
  induction l with
  | nil => rfl
  | cons a t ih => simp [ih]

/-- Claim C1 (amended): for every restore over a non-empty channel set
that enters `Running`, every channel contributes exactly one outcome —
a synchronous one or a pending `put` confirmation — and once the
pending confirmations are delivered (in any order), the coordinator is
back to idle and the caller's completion callback has fired exactly
once, carrying one outcome per channel and the `force` flag of this
restore. -/
theorem restore_completion_exactly_once (snap : Snapshot) (force : Bool)
    (sel order : List String)
    (hne : 0 < snap.pvs.length)
    (hok : (snap.restore_pvs force true sel).status = ActionStatus.ok)
    (horder : order.Perm (snap.restore_pvs force true sel).pending) :
    (snap.restore_pvs force true sel).snap.restored_pvs_list.length +
      (snap.restore_pvs force true sel).pending.length = snap.pvs.length ∧
    ∃ ev : RestoreEvent,
      (snap.restore_pvs force true sel).events ++
        ((snap.restore_pvs force true sel).snap.run_completions
          (order.map (fun n => (n, PvStatus.ok)))).2 = [ev] ∧
      ev.outcomes.length = snap.pvs.length ∧
      (ev.outcomes.map Prod.fst).Perm (snap.pvs.map Prod.fst) ∧
      ev.forced = force ∧
      ((snap.restore_pvs force true sel).snap.run_completions
          (order.map (fun n => (n, PvStatus.ok)))).1.restore_started = false := by
  have h1 : snap.restore_started = false := by
    cases hh : snap.restore_started
    · rfl
    · exfalso
      unfold Snapshot.restore_pvs at hok
      rw [if_pos hh] at hok
      exact ActionStatus.noConfusion hok
  have h2 : snap.restore_values_loaded = true := by
    cases hh : snap.restore_values_loaded
    · exfalso
      unfold Snapshot.restore_pvs at hok
      rw [if_neg (by simp [h1]), if_pos hh] at hok
      exact ActionStatus.noConfusion hok
    · rfl
  have h3 : ¬(force = false ∧
      ((snap.check_pvs_connected_status (some sel) = false ∧ sel ≠ []) ∨
       (snap.all_connected = false ∧ sel = []))) := by
    intro hg
    unfold Snapshot.restore_pvs at hok
    rw [if_neg (by simp [h1]), if_neg (by simp [h2]), if_pos hg] at hok
    exact ActionStatus.noConfusion hok
  rw [Snapshot.restore_pvs_ok snap force true sel h1 h2 h3] at horder ⊢
  rw [Snapshot.restore_loop_eq_run] at horder ⊢
  dsimp only at horder ⊢
  have hpairslen := Snapshot.sync_pend_length sel snap.pvs
  have hordlen : order.length = (Snapshot.pend_names sel snap.pvs).length :=
    horder.length_eq
  have hrest : (Snapshot.run_completions
      { snap with restore_started := true, current_restore_forced := force,
                  restored_pvs_list := [], restore_callback := true }
      (Snapshot.sync_pairs sel snap.pvs)).1.restored_pvs_list =
      Snapshot.sync_pairs sel snap.pvs := by
    rw [Snapshot.run_completions_restored]
    rfl
  constructor
  · rw [hrest]
    exact hpairslen
  · have happ := Snapshot.run_completions_append
      (Snapshot.sync_pairs sel snap.pvs) (order.map (fun n => (n, PvStatus.ok)))
      { snap with restore_started := true, current_restore_forced := force,
                  restored_pvs_list := [], restore_callback := true }
    have hlen2 : (Snapshot.sync_pairs sel snap.pvs ++
        order.map (fun n => (n, PvStatus.ok))).length = snap.pvs.length := by
      rw [List.length_append, List.length_map, hordlen]
      exact hpairslen
    have hfire := Snapshot.run_completions_fire
      (Snapshot.sync_pairs sel snap.pvs ++ order.map (fun n => (n, PvStatus.ok)))
      { snap with restore_started := true, current_restore_forced := force,
                  restored_pvs_list := [], restore_callback := true }
      rfl (by simpa using hlen2)
      (by
        intro hnil
        rw [hnil] at hlen2
        simp at hlen2
        omega)
    refine ⟨⟨Snapshot.sync_pairs sel snap.pvs ++
        order.map (fun n => (n, PvStatus.ok)), force⟩, ?_, ?_, ?_, rfl, ?_⟩
    · have he := congrArg Prod.snd happ
      dsimp only at he
      rw [← he]
      have h := hfire.1
      dsimp only at h
      simpa using h
    · exact hlen2
    · rw [List.map_append]
      rw [map_fst_pair_ok order]
      exact (List.Perm.append_left
        ((Snapshot.sync_pairs sel snap.pvs).map Prod.fst) horder).trans
        (Snapshot.sync_pend_perm sel snap.pvs)
    · have hs := congrArg Prod.fst happ
      dsimp only at hs
      rw [← hs]
      exact hfire.2.1

/-- Counterexample to claim C1 as stated: on an empty channel set a
forced restore enters `Running` (status `ok`) and the number of
collected outcomes (zero) equals the number of channels, yet the
completion callback never fires and the coordinator never returns to
idle. -/
theorem restore_empty_set_never_completes :
    (snapC1empty.restore_pvs true true []).status = ActionStatus.ok ∧
    (snapC1empty.restore_pvs true true []).snap.restored_pvs_list.length =
      snapC1empty.pvs.length ∧
    (snapC1empty.restore_pvs true true []).events = [] ∧
    (snapC1empty.restore_pvs true true []).snap.restore_started = true :=
  ⟨rfl, rfl, rfl, rfl⟩

/-- Witness for C1 on a concrete two-channel set with a selection: `A`
gets a real asynchronous write, `B` a synthetic `ok`. -/
theorem restore_completion_exactly_once_witness :
    0 < snapC1w.pvs.length ∧
    (snapC1w.restore_pvs false true ["A"]).status = ActionStatus.ok ∧
    (["A"] : List String).Perm (snapC1w.restore_pvs false true ["A"]).pending ∧
    ((snapC1w.restore_pvs false true ["A"]).snap.restored_pvs_list.length +
       (snapC1w.restore_pvs false true ["A"]).pending.length =
         snapC1w.pvs.length ∧
     ∃ ev : RestoreEvent,
       (snapC1w.restore_pvs false true ["A"]).events ++
         ((snapC1w.restore_pvs false true ["A"]).snap.run_completions
           ((["A"] : List String).map (fun n => (n, PvStatus.ok)))).2 = [ev] ∧
       ev.outcomes.length = snapC1w.pvs.length ∧
       (ev.outcomes.map Prod.fst).Perm (snapC1w.pvs.map Prod.fst) ∧
       ev.forced = false ∧
       ((snapC1w.restore_pvs false true ["A"]).snap.run_completions
           ((["A"] : List String).map (fun n => (n, PvStatus.ok)))).1.restore_started
         = false) :=
  ⟨by decide, rfl, by decide,
   restore_completion_exactly_once snapC1w false ["A"] ["A"] (by decide) rfl
     (by decide)⟩

/-- Claim C9: a save file with one value line whose value part is not
valid JSON (`PRESSURE,{not json`) yields exactly one decode error for
that entry, still records the entry name with an absent value (the line
was split at the first comma only), and parses all other lines
normally. -/
theorem malformed_value_line_scenario :
    (parse_from_save_file
      ["#\x7b\x7d", "TEMP,[1, 2, 3]", "PRESSURE,\x7bnot json", "A,5"]).saved_pvs =
      [("TEMP", some (Value.arr [Value.int 1, Value.int 2, Value.int 3])),
       ("PRESSURE", none), ("A", some (Value.int 5))] ∧
    (parse_from_save_file
      ["#\x7b\x7d", "TEMP,[1, 2, 3]", "PRESSURE,\x7bnot json", "A,5"]).meta_data = [] ∧
    (parse_from_save_file
      ["#\x7b\x7d", "TEMP,[1, 2, 3]", "PRESSURE,\x7bnot json", "A,5"]).err =
      [ParseErr.value_decode "PRESSURE"] :=
  ⟨rfl, rfl, rfl⟩

theorem skipWs_cons_of_ne (c : Char) (cs : List Char) (h : ¬(c = ' ')) :
    skipWs (c :: cs) = c :: cs := by
  simp [skipWs, h]

theorem skipWs_space (cs : List Char) : skipWs (' ' :: cs) = skipWs cs := by
  simp [skipWs]

theorem data_append (a b : String) : (a ++ b).data = a.data ++ b.data := rfl

theorem parseJStringAux_spec (cs : List Char) :
    ∀ acc rest : List Char, cs.all goodJChar = true →
      parseJStringAux acc (cs ++ '"' :: rest) =
        some (String.mk (acc.reverse ++ cs), rest) := by
  induction cs with
  | nil =>
    intro acc rest _
    simp [parseJStringAux]
  | cons c t ih =>
    intro acc rest hall
    simp only [List.all_cons, Bool.and_eq_true] at hall
    obtain ⟨hc, ht⟩ := hall
    simp only [goodJChar, Bool.and_eq_true, decide_eq_true_eq] at hc
    obtain ⟨⟨h1, h2⟩, h3⟩ := hc
    show parseJStringAux acc (c :: (t ++ '"' :: rest)) = _
    simp only [parseJStringAux]
    rw [if_neg h1, if_neg h2, if_neg (by omega : ¬(c.toNat < 32))]
    rw [ih (c :: acc) rest ht]
    simp

theorem jsonLoads_quoted (s : String) (h : goodJString s = true) :
    jsonLoads ("\"" ++ s ++ "\"") = some (Value.str s) := by
  have hd : (("\"" : String) ++ s ++ "\"").data = '"' :: (s.data ++ '"' :: []) := by
    rw [data_append, data_append]
    rfl
  unfold jsonLoads
  rw [hd]
  simp only [parseValue]
  rw [skipWs_cons_of_ne '"' _ (by decide)]
  have hps := parseJStringAux_spec s.data [] []
    (by simpa [goodJString] using h)
  simp [hps, skipWs]

/-- Claim C7 (amended): `parse_to_save_file` serializes string values
through JSON like every other value — the emitted line carries the
JSON-quoted string, arrays are serialized as JSON arrays — and the read
side decodes the value part as plain JSON (a JSON-quoted string decodes
back to the string; there is no bare-string special case). -/
theorem entry_string_json_quoted (name s : String) (h : goodJString s = true) :
    entryLine (name, some (Value.str s)) = name ++ "," ++ ("\"" ++ s ++ "\"") ∧
    jsonLoads ("\"" ++ s ++ "\"") = some (Value.str s) ∧
    (∀ l : List Value, entryLine (name, some (Value.arr l)) =
      name ++ "," ++ jsonDumps (Value.arr l)) := by
  refine ⟨?_, jsonLoads_quoted s h, fun l => rfl⟩
  show name ++ "," ++ jsonDumps (Value.str s) = name ++ "," ++ ("\"" ++ s ++ "\"")
  rfl

/-- Witness for C7 (amended) at a concrete string entry. -/
theorem entry_string_json_quoted_witness :
    goodJString "hi" = true ∧
    (entryLine ("A", some (Value.str "hi")) = "A" ++ "," ++ ("\"" ++ "hi" ++ "\"") ∧
     jsonLoads ("\"" ++ "hi" ++ "\"") = some (Value.str "hi") ∧
     (∀ l : List Value, entryLine ("A", some (Value.arr l)) =
       "A" ++ "," ++ jsonDumps (Value.arr l))) :=
  ⟨by decide, entry_string_json_quoted "A" "hi" (by decide)⟩

/-- Counterexample to claim C7 as stated: the written line for a string
value is JSON-quoted, not bare, and the reader has no bare-string
special case — a bare string value fails to decode and is recorded as
an absent value with a decode error. -/
theorem entry_string_not_bare :
    entryLine ("A", some (Value.str "hi")) = "A,\"hi\"" ∧
    entryLine ("A", some (Value.str "hi")) ≠ "A,hi" ∧
    (parse_from_save_file ["#\x7b\x7d", "A,hi"]).saved_pvs = [("A", none)] ∧
    (parse_from_save_file ["#\x7b\x7d", "A,hi"]).err = [ParseErr.value_decode "A"] :=
  ⟨rfl, by decide, rfl, rfl⟩

theorem digitChar_facts (d : Nat) (h : d < 10) :
    (digitChar d).isDigit = true ∧ (digitChar d).toNat - 48 = d ∧
    (digitChar d).isWhitespace = false ∧ ¬(digitChar d = ' ') ∧
    ¬(digitChar d = '"') ∧ ¬(digitChar d = '[') ∧ ¬(digitChar d = ']') ∧
    ¬(digitChar d = 'n') ∧ ¬(digitChar d = '-') ∧ ¬(digitChar d = ',') ∧
    ¬(digitChar d = '#') := by
  interval_cases d <;> exact ⟨rfl, rfl, rfl, by decide, by decide, by decide,
    by decide, by decide, by decide, by decide, by decide⟩

theorem isDigit_facts (c : Char) (h : c.isDigit = true) :
    ¬(c = '"') ∧ ¬(c = '[') ∧ ¬(c = ']') ∧ ¬(c = 'n') ∧ ¬(c = '-') ∧
    ¬(c = ' ') := by
  refine ⟨?_, ?_, ?_, ?_, ?_, ?_⟩ <;>
    · intro heq
      rw [heq] at h
      exact absurd h (by decide)

theorem digitsToNat_concat (ds : List Char) (c : Char) :
    digitsToNat (ds ++ [c]) = 10 * digitsToNat ds + (c.toNat - 48) := by
  unfold digitsToNat
  rw [List.foldl_append]
  simp [Nat.mul_comm]

theorem natDigitsAux_spec (fuel : Nat) :
    ∀ n, n < 10 ^ (fuel + 1) →
      natDigitsAux (fuel + 1) n ≠ [] ∧
      (natDigitsAux (fuel + 1) n).all Char.isDigit = true ∧
      digitsToNat (natDigitsAux (fuel + 1) n) = n := by
  induction fuel with
  | zero =>
    intro n hn
    have h10 : n < 10 := by simpa using hn
    simp only [natDigitsAux, if_pos h10]
    obtain ⟨hd, ht, _⟩ := digitChar_facts n h10
    refine ⟨by simp, by simp [hd], ?_⟩
    simp [digitsToNat, ht]
  | succ f ih =>
    intro n hn
    by_cases h10 : n < 10
    · simp only [natDigitsAux, if_pos h10]
      obtain ⟨hd, ht, _⟩ := digitChar_facts n h10
      refine ⟨by simp, by simp [hd], ?_⟩
      simp [digitsToNat, ht]
    · have hstep : natDigitsAux (f + 1 + 1) n =
          natDigitsAux (f + 1) (n / 10) ++ [digitChar (n % 10)] := by
        show (if n < 10 then [digitChar n]
              else natDigitsAux (f + 1) (n / 10) ++ [digitChar (n % 10)]) = _
        rw [if_neg h10]
      have hdiv : n / 10 < 10 ^ (f + 1) := by
        rw [Nat.div_lt_iff_lt_mul (by omega : 0 < 10)]
        calc n < 10 ^ (f + 1 + 1) := hn
        _ = 10 ^ (f + 1) * 10 := by ring
      obtain ⟨h1, h2, h3⟩ := ih (n / 10) hdiv
      obtain ⟨hd, ht, _⟩ := digitChar_facts (n % 10) (Nat.mod_lt n (by omega))
      rw [hstep]
      refine ⟨by simp, ?_, ?_⟩
      · rw [List.all_append, h2]
        simp [hd]
      · rw [digitsToNat_concat, h3, ht]
        omega

theorem natDigits_spec (n : Nat) :
    natDigits n ≠ [] ∧ (natDigits n).all Char.isDigit = true ∧
    digitsToNat (natDigits n) = n := by
  unfold natDigits
  exact natDigitsAux_spec n n
    (lt_of_lt_of_le (Nat.lt_pow_self (by omega) n)
      (Nat.pow_le_pow_right (by omega) (by omega)))

theorem takeWhile_stop (p : Char → Bool) (rest : List Char)
    (hr : rest = [] ∨ ∃ c t, rest = c :: t ∧ p c = false) :
    rest.takeWhile p = [] ∧ rest.dropWhile p = rest := by
  rcases hr with h | ⟨c, t, hct, hc⟩
  · subst h; exact ⟨rfl, rfl⟩
  · subst hct
    constructor
    · simp [List.takeWhile_cons, hc]
    · simp [List.dropWhile_cons, hc]

theorem headNotDigit_elim (rest : List Char) (hr : headNotDigit rest = true) :
    rest = [] ∨ ∃ c t, rest = c :: t ∧ c.isDigit = false := by
  cases rest with
  | nil => exact Or.inl rfl
  | cons c t =>
    refine Or.inr ⟨c, t, rfl, ?_⟩
    simpa [headNotDigit] using hr

theorem parseNat_digits (n : Nat) (rest : List Char)
    (hr : headNotDigit rest = true) :
    parseNat (natDigits n ++ rest) = some (n, rest) := by
  obtain ⟨hne, hall, hval⟩ := natDigits_spec n
  have hmem : ∀ c ∈ natDigits n, c.isDigit = true := by
    intro c hc
    exact List.all_eq_true.mp hall c hc
  obtain ⟨ht, hd⟩ := takeWhile_stop Char.isDigit rest (headNotDigit_elim rest hr)
  unfold parseNat
  rw [List.takeWhile_append_of_pos hmem, List.dropWhile_append_of_pos hmem, ht, hd]
  rw [List.append_nil]
  rw [if_neg (by simpa [List.isEmpty_iff] using hne)]
  rw [hval]

theorem parseValue_skip_space (f : Nat) (cs : List Char) :
    parseValue f (' ' :: cs) = parseValue f cs := by
  cases f with
  | zero => rfl
  | succ g => simp only [parseValue, skipWs_space]

theorem parseValue_null (f : Nat) (rest : List Char) :
    parseValue (f + 1) (("null" : String).data ++ rest) =
      some (Value.null, rest) := by
  show parseValue (f + 1) ('n' :: 'u' :: 'l' :: 'l' :: rest) = _
  simp only [parseValue]
  rw [skipWs_cons_of_ne 'n' _ (by decide)]
  simp

theorem parseValue_int (f : Nat) (i : Int) (rest : List Char)
    (hr : headNotDigit rest = true) :
    parseValue (f + 1) ((intDumps i).data ++ rest) = some (Value.int i, rest) := by
  by_cases hneg : i < 0
  · have hdata : (intDumps i).data = '-' :: natDigits (-i).toNat := by
      unfold intDumps
      rw [if_pos hneg]
    rw [hdata]
    show parseValue (f + 1) ('-' :: (natDigits (-i).toNat ++ rest)) = _
    simp only [parseValue]
    rw [skipWs_cons_of_ne '-' _ (by decide)]
    dsimp only
    rw [if_neg (by decide : ¬('-' = '"')), if_neg (by decide : ¬('-' = '[')),
        if_neg (by decide : ¬('-' = 'n')), if_pos rfl]
    rw [parseNat_digits _ rest hr]
    have ht : (((-i).toNat : Int)) = -i := Int.toNat_of_nonneg (by omega)
    simp [ht]
  · have hpos : 0 ≤ i := by omega
    have hdata : (intDumps i).data = natDigits i.toNat := by
      unfold intDumps
      rw [if_neg hneg]
    rw [hdata]
    obtain ⟨hne, hall, _⟩ := natDigits_spec i.toNat
    obtain ⟨c, cs, hcons⟩ : ∃ c cs, natDigits i.toNat = c :: cs := by
      cases hh : natDigits i.toNat with
      | nil => exact absurd hh hne
      | cons a t => exact ⟨a, t, rfl⟩
    have hcdig : c.isDigit = true :=
      List.all_eq_true.mp hall c (by rw [hcons]; simp)
    obtain ⟨hq, hb, _hrb, hn, hm, hs⟩ := isDigit_facts c hcdig
    rw [hcons]
    show parseValue (f + 1) (c :: (cs ++ rest)) = _
    simp only [parseValue]
    rw [skipWs_cons_of_ne c _ hs]
    dsimp only
    rw [if_neg hq, if_neg hb, if_neg hn, if_neg hm, if_pos hcdig]
    have hback : c :: (cs ++ rest) = natDigits i.toNat ++ rest := by
      rw [hcons]
      rfl
    rw [hback, parseNat_digits _ rest hr]
    simp [Int.toNat_of_nonneg hpos]

theorem parseValue_str (f : Nat) (s : String) (rest : List Char)
    (h : goodJString s = true) :
    parseValue (f + 1) ((jsonDumps (Value.str s)).data ++ rest) =
      some (Value.str s, rest) := by
  have hdata : (jsonDumps (Value.str s)).data ++ rest =
      '"' :: (s.data ++ ('"' :: rest)) := by
    show (("\"" ++ s ++ "\"") : String).data ++ rest = _
    rw [data_append, data_append]
    simp
  rw [hdata]
  simp only [parseValue]
  rw [skipWs_cons_of_ne '"' _ (by decide)]
  dsimp only
  rw [if_pos rfl]
  rw [parseJStringAux_spec s.data [] rest (by simpa [goodJString] using h)]
  simp

theorem dumps_head (v : Value) :
    ∃ c cs, (jsonDumps v).data = c :: cs ∧ ¬(c = ' ') ∧ ¬(c = ']') := by
  cases v with
  | null => exact ⟨'n', _, rfl, by decide, by decide⟩
  | str s =>
    refine ⟨'"', s.data ++ ['"'], ?_, by decide, by decide⟩
    show (("\"" ++ s ++ "\"") : String).data = _
    rw [data_append, data_append]
    simp
  | arr l =>
    refine ⟨'[', (jsonDumpsElems l).data ++ [']'], ?_, by decide, by decide⟩
    show (("[" ++ jsonDumpsElems l ++ "]") : String).data = _
    rw [data_append, data_append]
    simp
  | int i =>
    by_cases hneg : i < 0
    · refine ⟨'-', natDigits (-i).toNat, ?_, by decide, by decide⟩
      show (intDumps i).data = _
      unfold intDumps
      rw [if_pos hneg]
    · obtain ⟨hne, hall, _⟩ := natDigits_spec i.toNat
      obtain ⟨c, cs, hcons⟩ : ∃ c cs, natDigits i.toNat = c :: cs := by
        cases hh : natDigits i.toNat with
        | nil => exact absurd hh hne
        | cons a t => exact ⟨a, t, rfl⟩
      have hcdig : c.isDigit = true :=
        List.all_eq_true.mp hall c (by rw [hcons]; simp)
      obtain ⟨_, _, hrb, _, _, hs⟩ := isDigit_facts c hcdig
      refine ⟨c, cs, ?_, hs, hrb⟩
      show (intDumps i).data = _
      unfold intDumps
      rw [if_neg hneg, hcons]

theorem dumpsRest_head_notDigit (t : List Value) (rest : List Char) :
    headNotDigit ((jsonDumpsRest t).data ++ ']' :: rest) = true := by
  cases t with
  | nil => rfl
  | cons x l =>
    show headNotDigit (((", " ++ jsonDumps x ++ jsonDumpsRest l) : String).data
      ++ ']' :: rest) = true
    rw [data_append, data_append]
    rfl

theorem lfuel_pos (l : List Value) : 1 ≤ lfuel l := by
  cases l with
  | nil => exact le_refl 1
  | cons v t => show 1 ≤ 1 + max (vfuel v) (lfuel t); omega

theorem vfuel_pos (v : Value) : 1 ≤ vfuel v := by
  cases v with
  | null => exact le_refl 1
  | int i => exact le_refl 1
  | str s => exact le_refl 1
  | arr l => exact lfuel_pos l

theorem parse_dumps (fuel : Nat) :
    (∀ v rest, vfuel v ≤ fuel → goodValue v = true → headNotDigit rest = true →
      parseValue fuel ((jsonDumps v).data ++ rest) = some (v, rest)) ∧
    (∀ l rest, lfuel l ≤ fuel → goodValueList l = true →
      headNotDigit rest = true →
      parseArrRest fuel ((jsonDumpsRest l).data ++ ']' :: rest) =
        some (l, rest)) := by
  induction fuel with
  | zero =>
    constructor
    · intro v rest hf _ _
      exact absurd hf (by have := vfuel_pos v; omega)
    · intro l rest hf _ _
      exact absurd hf (by have := lfuel_pos l; omega)
  | succ f ih =>
    obtain ⟨ihv, ihl⟩ := ih
    constructor
    · intro v rest hf hg hr
      cases v with
      | null => exact parseValue_null f rest
      | int i => exact parseValue_int f i rest hr
      | str s => exact parseValue_str f s rest (by simpa [goodValue] using hg)
      | arr l =>
        cases l with
        | nil =>
          show parseValue (f + 1) ('[' :: ']' :: rest) = _
          simp only [parseValue]
          rw [skipWs_cons_of_ne '[' _ (by decide)]
          dsimp only
          rw [if_neg (by decide : ¬('[' = '"')), if_pos rfl]
          rw [skipWs_cons_of_ne ']' _ (by decide)]
          dsimp only
          rw [if_pos rfl]
        | cons x t =>
          have hgx : goodValue x = true ∧ goodValueList t = true := by
            have : goodValueList (x :: t) = true := hg
            simpa [goodValueList, Bool.and_eq_true] using this
          have hfx : vfuel x ≤ f ∧ lfuel t ≤ f := by
            have h1 : vfuel (Value.arr (x :: t)) =
              1 + max (vfuel x) (lfuel t) := rfl
            rw [h1] at hf
            omega
          obtain ⟨c, cs, hc, hcs, hcb⟩ := dumps_head x
          have hdata : (jsonDumps (Value.arr (x :: t))).data ++ rest =
              '[' :: ((jsonDumps x).data ++
                ((jsonDumpsRest t).data ++ ']' :: rest)) := by
            show (("[" ++ (jsonDumps x ++ jsonDumpsRest t) ++ "]") : String).data
                ++ rest = _
            rw [data_append, data_append, data_append]
            simp [List.append_assoc]
          rw [hdata]
          simp only [parseValue]
          rw [skipWs_cons_of_ne '[' _ (by decide)]
          dsimp only
          rw [if_neg (by decide : ¬('[' = '"')), if_pos rfl]
          rw [show (jsonDumps x).data ++ ((jsonDumpsRest t).data ++ ']' :: rest)
              = c :: (cs ++ ((jsonDumpsRest t).data ++ ']' :: rest)) from by
            rw [hc]; rfl]
          rw [skipWs_cons_of_ne c _ hcs]
          dsimp only
          rw [if_neg hcb]
          rw [show c :: (cs ++ ((jsonDumpsRest t).data ++ ']' :: rest))
              = (jsonDumps x).data ++ ((jsonDumpsRest t).data ++ ']' :: rest)
              from by rw [hc]; rfl]
          rw [ihv x _ hfx.1 hgx.1 (dumpsRest_head_notDigit t rest)]
          dsimp only
          rw [ihl t rest hfx.2 hgx.2 hr]
    · intro l rest hf hg hr
      cases l with
      | nil =>
        show parseArrRest (f + 1) (']' :: rest) = _
        simp only [parseArrRest]
        rw [skipWs_cons_of_ne ']' _ (by decide)]
        dsimp only
        rw [if_pos rfl]
      | cons x t =>
        have hgx : goodValue x = true ∧ goodValueList t = true := by
          simpa [goodValueList, Bool.and_eq_true] using hg
        have hfx : vfuel x ≤ f ∧ lfuel t ≤ f := by
          have h1 : lfuel (x :: t) = 1 + max (vfuel x) (lfuel t) := rfl
          rw [h1] at hf
          omega
        have hdata : (jsonDumpsRest (x :: t)).data ++ ']' :: rest =
            ',' :: ' ' :: ((jsonDumps x).data ++
              ((jsonDumpsRest t).data ++ ']' :: rest)) := by
          show ((", " ++ jsonDumps x ++ jsonDumpsRest t) : String).data
              ++ ']' :: rest = _
          rw [data_append, data_append]
          simp [List.append_assoc]
        rw [hdata]
        simp only [parseArrRest]
        rw [skipWs_cons_of_ne ',' _ (by decide)]
        dsimp only
        rw [if_neg (by decide : ¬(',' = ']')), if_pos rfl]
        rw [parseValue_skip_space]
        rw [ihv x _ hfx.1 hgx.1 (dumpsRest_head_notDigit t rest)]
        dsimp only
        rw [ihl t rest hfx.2 hgx.2 hr]

theorem dumps_len_pos (v : Value) : 1 ≤ (jsonDumps v).data.length := by
  obtain ⟨c, cs, hc, _, _⟩ := dumps_head v
  rw [hc]
  simp

theorem dumpsRest_len (x : Value) (t : List Value) :
    (jsonDumpsRest (x :: t)).data.length =
      2 + (jsonDumps x).data.length + (jsonDumpsRest t).data.length := by
  show ((", " ++ jsonDumps x ++ jsonDumpsRest t) : String).data.length = _
  rw [data_append, data_append, List.length_append, List.length_append]
  have h2 : (", " : String).data.length = 2 := rfl
  omega

theorem dumpsElems_len (x : Value) (t : List Value) :
    (jsonDumpsElems (x :: t)).data.length =
      (jsonDumps x).data.length + (jsonDumpsRest t).data.length := by
  show ((jsonDumps x ++ jsonDumpsRest t) : String).data.length = _
  rw [data_append, List.length_append]

theorem dumpsArr_len (l : List Value) :
    (jsonDumps (Value.arr l)).data.length =
      (jsonDumpsElems l).data.length + 2 := by
  show (("[" ++ jsonDumpsElems l ++ "]") : String).data.length = _
  rw [data_append, data_append, List.length_append, List.length_append]
  have hb : ("[" : String).data.length = 1 := rfl
  have hc : ("]" : String).data.length = 1 := rfl
  omega

theorem fuel_bound_list (k : Nat) : ∀ l, lfuel l ≤ k →
    lfuel l ≤ (jsonDumpsRest l).data.length + 1 ∧
    lfuel l ≤ (jsonDumpsElems l).data.length + 1 := by
  induction k with
  | zero =>
    intro l h
    exact absurd h (by have := lfuel_pos l; omega)
  | succ f ih =>
    intro l hl
    cases l with
    | nil => exact ⟨by decide, by decide⟩
    | cons x t =>
      have h1 : lfuel (x :: t) = 1 + max (vfuel x) (lfuel t) := rfl
      have hx : vfuel x ≤ f ∧ lfuel t ≤ f := by
        rw [h1] at hl
        omega
      have hvx : vfuel x ≤ (jsonDumps x).data.length := by
        cases x with
        | null => exact dumps_len_pos _
        | int i => exact dumps_len_pos _
        | str s => exact dumps_len_pos _
        | arr m =>
          have hm : lfuel m ≤ f := hx.1
          have := (ih m hm).2
          have harr : vfuel (Value.arr m) = lfuel m := rfl
          rw [harr, dumpsArr_len]
          omega
      have ht := ih t hx.2
      have hpos := dumps_len_pos x
      constructor
      · rw [h1, dumpsRest_len]
        omega
      · rw [h1, dumpsElems_len]
        omega

theorem vfuel_le_dumps (v : Value) : vfuel v ≤ (jsonDumps v).data.length := by
  cases v with
  | null => exact dumps_len_pos _
  | int i => exact dumps_len_pos _
  | str s => exact dumps_len_pos _
  | arr m =>
    have := (fuel_bound_list (lfuel m) m (le_refl _)).2
    have harr : vfuel (Value.arr m) = lfuel m := rfl
    rw [harr, dumpsArr_len]
    omega

theorem jsonLoads_dumps (v : Value) (h : goodValue v = true) :
    jsonLoads (jsonDumps v) = some v := by
  unfold jsonLoads
  have hfuel : vfuel v ≤ (jsonDumps v).data.length + 1 := by
    have := vfuel_le_dumps v
    omega
  have hp := (parse_dumps ((jsonDumps v).data.length + 1)).1 v [] hfuel h rfl
  rw [List.append_nil] at hp
  rw [hp]
  rfl

theorem parsePair_skip_space (f : Nat) (cs : List Char) :
    parsePair f (' ' :: cs) = parsePair f cs := by
  unfold parsePair
  rw [skipWs_space]

theorem parsePair_dumps (fuel : Nat) (kv : String × Value) (rest : List Char)
    (hf : vfuel kv.2 ≤ fuel) (hk : goodJString kv.1 = true)
    (hv : goodValue kv.2 = true) (hr : headNotDigit rest = true) :
    parsePair fuel ((jsonDumpsPair kv).data ++ rest) = some (kv, rest) := by
  obtain ⟨k, v⟩ := kv
  have hdata : (jsonDumpsPair (k, v)).data ++ rest =
      '"' :: (k.data ++ ('"' :: ':' :: ' ' :: ((jsonDumps v).data ++ rest))) := by
    show (("\"" ++ k ++ "\": " ++ jsonDumps v) : String).data ++ rest = _
    rw [data_append, data_append, data_append]
    simp [List.append_assoc]
  rw [hdata]
  unfold parsePair
  rw [skipWs_cons_of_ne '"' _ (by decide)]
  dsimp only
  rw [if_pos rfl]
  rw [parseJStringAux_spec k.data [] (':' :: ' ' :: ((jsonDumps v).data ++ rest))
    (by simpa [goodJString] using hk)]
  dsimp only
  rw [skipWs_cons_of_ne ':' _ (by decide)]
  dsimp only
  rw [if_pos rfl]
  rw [parseValue_skip_space]
  rw [(parse_dumps fuel).1 v rest hf hv hr]
  rfl

theorem dumpsMetaRest_head_notDigit (t : List (String × Value)) (rest : List Char) :
    headNotDigit ((jsonDumpsMetaRest t).data ++ '\x7d' :: rest) = true := by
  cases t with
  | nil => rfl
  | cons kv l =>
    show headNotDigit (((", " ++ jsonDumpsPair kv ++ jsonDumpsMetaRest l) :
      String).data ++ '\x7d' :: rest) = true
    rw [data_append, data_append]
    rfl

theorem goodMeta_cons (kv : String × Value) (t : List (String × Value))
    (h : goodMeta (kv :: t) = true) :
    goodJString kv.1 = true ∧ goodValue kv.2 = true ∧ goodMeta t = true := by
  simp only [goodMeta, List.all_cons, Bool.and_eq_true] at h ⊢
  exact ⟨h.1.1, h.1.2, h.2⟩

theorem parseObjRest_dumps (pairs : List (String × Value)) :
    ∀ (fuel : Nat) (rest : List Char), ofuel pairs ≤ fuel →
      goodMeta pairs = true → headNotDigit rest = true →
      parseObjRest fuel ((jsonDumpsMetaRest pairs).data ++ '\x7d' :: rest) =
        some (pairs, rest) := by
  induction pairs with
  | nil =>
    intro fuel rest hf _ _
    cases fuel with
    | zero => exact absurd hf (by simp [ofuel])
    | succ g =>
      show parseObjRest (g + 1) ('\x7d' :: rest) = _
      simp only [parseObjRest]
      rw [skipWs_cons_of_ne '\x7d' _ (by decide)]
      dsimp only
      rw [if_pos rfl]
  | cons kv t ih =>
    intro fuel rest hf hg hr
    obtain ⟨hk, hv, ht⟩ := goodMeta_cons kv t hg
    cases fuel with
    | zero =>
      exact absurd hf (by show ¬(1 + max (vfuel kv.2) (ofuel t) ≤ 0); omega)
    | succ g =>
      have hfx : vfuel kv.2 ≤ g ∧ ofuel t ≤ g := by
        have h1 : ofuel (kv :: t) = 1 + max (vfuel kv.2) (ofuel t) := rfl
        rw [h1] at hf
        omega
      have hdata : (jsonDumpsMetaRest (kv :: t)).data ++ '\x7d' :: rest =
          ',' :: ' ' :: ((jsonDumpsPair kv).data ++
            ((jsonDumpsMetaRest t).data ++ '\x7d' :: rest)) := by
        show ((", " ++ jsonDumpsPair kv ++ jsonDumpsMetaRest t) : String).data
            ++ '\x7d' :: rest = _
        rw [data_append, data_append]
        simp [List.append_assoc]
      rw [hdata]
      simp only [parseObjRest]
      rw [skipWs_cons_of_ne ',' _ (by decide)]
      dsimp only
      rw [if_neg (by decide : ¬(',' = '\x7d')), if_pos rfl]
      rw [parsePair_skip_space]
      rw [parsePair_dumps g kv _ hfx.1 hk hv (dumpsMetaRest_head_notDigit t rest)]
      dsimp only
      rw [ih g rest hfx.2 ht hr]

theorem parseObj_dumps (pairs : List (String × Value)) (fuel : Nat)
    (rest : List Char) (hf : ofuel pairs ≤ fuel) (hg : goodMeta pairs = true)
    (hr : headNotDigit rest = true) :
    parseObj fuel ((jsonDumpsMeta pairs).data ++ rest) = some (pairs, rest) := by
  cases pairs with
  | nil =>
    show parseObj fuel ('\x7b' :: '\x7d' :: rest) = _
    unfold parseObj
    rw [skipWs_cons_of_ne '\x7b' _ (by decide)]
    dsimp only
    rw [if_pos rfl]
    rw [skipWs_cons_of_ne '\x7d' _ (by decide)]
    dsimp only
    rw [if_pos rfl]
  | cons kv t =>
    obtain ⟨hk, hv, ht⟩ := goodMeta_cons kv t hg
    have hfx : vfuel kv.2 ≤ fuel ∧ ofuel t ≤ fuel := by
      have h1 : ofuel (kv :: t) = 1 + max (vfuel kv.2) (ofuel t) := rfl
      rw [h1] at hf
      omega
    have hdata : (jsonDumpsMeta (kv :: t)).data ++ rest =
        '\x7b' :: ('"' :: (kv.1.data ++ ('"' :: ':' :: ' ' ::
          ((jsonDumps kv.2).data ++
            ((jsonDumpsMetaRest t).data ++ '\x7d' :: rest))))) := by
      show (("\x7b" ++ jsonDumpsPair kv ++ jsonDumpsMetaRest t ++ "\x7d") :
        String).data ++ rest = _
      show (("\x7b" ++ ("\"" ++ kv.1 ++ "\": " ++ jsonDumps kv.2) ++
        jsonDumpsMetaRest t ++ "\x7d") : String).data ++ rest = _
      rw [data_append, data_append, data_append, data_append, data_append]
      simp [List.append_assoc]
    rw [hdata]
    unfold parseObj
    rw [skipWs_cons_of_ne '\x7b' _ (by decide)]
    dsimp only
    rw [if_pos rfl]
    rw [skipWs_cons_of_ne '"' _ (by decide)]
    dsimp only
    rw [if_neg (by decide : ¬('"' = '\x7d'))]
    rw [show ('"' :: (kv.1.data ++ ('"' :: ':' :: ' ' ::
        ((jsonDumps kv.2).data ++
          ((jsonDumpsMetaRest t).data ++ '\x7d' :: rest))))) =
        (jsonDumpsPair kv).data ++
          ((jsonDumpsMetaRest t).data ++ '\x7d' :: rest) from by
      show _ = (("\"" ++ kv.1 ++ "\": " ++ jsonDumps kv.2) : String).data ++ _
      rw [data_append, data_append, data_append]
      simp [List.append_assoc]]
    rw [parsePair_dumps fuel kv _ hfx.1 hk hv (dumpsMetaRest_head_notDigit t rest)]
    dsimp only
    rw [parseObjRest_dumps t fuel rest hfx.2 ht hr]

theorem dumpsPair_len (kv : String × Value) :
    (jsonDumpsPair kv).data.length =
      kv.1.data.length + (jsonDumps kv.2).data.length + 4 := by
  show (("\"" ++ kv.1 ++ "\": " ++ jsonDumps kv.2) : String).data.length = _
  rw [data_append, data_append, data_append, List.length_append,
      List.length_append, List.length_append]
  have h1 : ("\"" : String).data.length = 1 := rfl
  have h2 : ("\": " : String).data.length = 3 := rfl
  omega

theorem dumpsMetaRest_len (kv : String × Value) (t : List (String × Value)) :
    (jsonDumpsMetaRest (kv :: t)).data.length =
      2 + (jsonDumpsPair kv).data.length + (jsonDumpsMetaRest t).data.length := by
  show ((", " ++ jsonDumpsPair kv ++ jsonDumpsMetaRest t) : String).data.length = _
  rw [data_append, data_append, List.length_append, List.length_append]
  have h1 : (", " : String).data.length = 2 := rfl
  omega

theorem dumpsMeta_len_cons (kv : String × Value) (t : List (String × Value)) :
    (jsonDumpsMeta (kv :: t)).data.length =
      2 + (jsonDumpsPair kv).data.length + (jsonDumpsMetaRest t).data.length := by
  show (("\x7b" ++ jsonDumpsPair kv ++ jsonDumpsMetaRest t ++ "\x7d") :
    String).data.length = _
  rw [data_append, data_append, data_append, List.length_append,
      List.length_append, List.length_append]
  have h1 : ("\x7b" : String).data.length = 1 := rfl
  have h2 : ("\x7d" : String).data.length = 1 := rfl
  omega

theorem ofuel_le_metaRest (t : List (String × Value)) :
    ofuel t ≤ (jsonDumpsMetaRest t).data.length + 1 := by
  induction t with
  | nil => decide
  | cons kv l ih =>
    have h1 : ofuel (kv :: l) = 1 + max (vfuel kv.2) (ofuel l) := rfl
    have h2 := vfuel_le_dumps kv.2
    rw [h1, dumpsMetaRest_len, dumpsPair_len]
    omega

theorem ofuel_le_meta (pairs : List (String × Value)) :
    ofuel pairs ≤ (jsonDumpsMeta pairs).data.length + 1 := by
  cases pairs with
  | nil => decide
  | cons kv t =>
    have h1 : ofuel (kv :: t) = 1 + max (vfuel kv.2) (ofuel t) := rfl
    have h2 := vfuel_le_dumps kv.2
    have h3 := ofuel_le_metaRest t
    rw [h1, dumpsMeta_len_cons, dumpsPair_len]
    omega

theorem jsonLoadsMeta_dumps (pairs : List (String × Value))
    (hg : goodMeta pairs = true) :
    jsonLoadsMeta (jsonDumpsMeta pairs) = some pairs := by
  unfold jsonLoadsMeta
  have hp := parseObj_dumps pairs ((jsonDumpsMeta pairs).data.length + 1) []
    (by have := ofuel_le_meta pairs; omega) hg rfl
  rw [List.append_nil] at hp
  rw [hp]
  rfl

theorem dropWhile_head_false (p : Char → Bool) (cs : List Char)
    (h : ∀ c, cs.head? = some c → p c = false) : cs.dropWhile p = cs := by
  cases cs with
  | nil => rfl
  | cons c t => simp [List.dropWhile_cons, h c rfl]

theorem stripList_eq_self (cs : List Char)
    (h1 : ∀ c, cs.head? = some c → c.isWhitespace = false)
    (h2 : ∀ c, cs.getLast? = some c → c.isWhitespace = false) :
    stripList cs = cs := by
  unfold stripList
  rw [dropWhile_head_false _ _ h1]
  rw [dropWhile_head_false _ _ (by
    intro c hc
    apply h2
    rwa [← List.head?_reverse])]
  rw [List.reverse_reverse]

theorem splitFirstComma_no_comma (cs : List Char)
    (h : ∀ c ∈ cs, ¬(c = ',')) : splitFirstComma cs = (cs, none) := by
  induction cs with
  | nil => rfl
  | cons c t ih =>
    simp only [splitFirstComma]
    rw [if_neg (h c (by simp))]
    rw [ih (fun c hc => h c (by simp [hc]))]

theorem splitFirstComma_append (name rest : List Char)
    (h : ∀ c ∈ name, ¬(c = ',')) :
    splitFirstComma (name ++ ',' :: rest) = (name, some rest) := by
  induction name with
  | nil => simp [splitFirstComma]
  | cons c t ih =>
    show splitFirstComma (c :: (t ++ ',' :: rest)) = _
    simp only [splitFirstComma]
    rw [if_neg (h c (by simp))]
    rw [ih (fun c hc => h c (by simp [hc]))]

theorem goodName_facts (s : String) (h : goodName s = true) :
    s.data ≠ [] ∧
    ∀ c ∈ s.data, ¬(c = ',') ∧ c.isWhitespace = false ∧ ¬(c = '#') := by
  simp only [goodName, Bool.and_eq_true, List.all_eq_true, Bool.not_eq_true',
    decide_eq_true_eq] at h
  obtain ⟨hne, hall⟩ := h
  refine ⟨?_, fun c hc => ?_⟩
  · intro hnil
    rw [hnil] at hne
    simp at hne
  · have := hall c hc
    simp only [Bool.and_eq_true, decide_eq_true_eq, Bool.not_eq_true'] at this
    exact ⟨this.1.1, this.1.2, this.2⟩

theorem natDigits_last (n : Nat) :
    ∃ d, d < 10 ∧ (natDigits n).getLast? = some (digitChar d) := by
  unfold natDigits
  by_cases h10 : n < 10
  · refine ⟨n, h10, ?_⟩
    show (if n < 10 then [digitChar n]
      else natDigitsAux n (n / 10) ++ [digitChar (n % 10)]).getLast? = _
    rw [if_pos h10]
    rfl
  · refine ⟨n % 10, Nat.mod_lt n (by omega), ?_⟩
    show (if n < 10 then [digitChar n]
      else natDigitsAux n (n / 10) ++ [digitChar (n % 10)]).getLast? = _
    rw [if_neg h10]
    exact List.getLast?_concat _

theorem dumps_last_not_ws (v : Value) :
    ∀ c, (jsonDumps v).data.getLast? = some c → c.isWhitespace = false := by
  intro c hc
  cases v with
  | null =>
    have : (jsonDumps Value.null).data.getLast? = some 'l' := rfl
    rw [this] at hc
    cases hc
    decide
  | str s =>
    have hshape : (jsonDumps (Value.str s)).data = ('"' :: s.data) ++ ['"'] := by
      show (("\"" ++ s ++ "\"") : String).data = _
      rw [data_append, data_append]
      simp
    rw [hshape, List.getLast?_concat] at hc
    cases hc
    decide
  | arr l =>
    have hshape : (jsonDumps (Value.arr l)).data =
        ('[' :: (jsonDumpsElems l).data) ++ [']'] := by
      show (("[" ++ jsonDumpsElems l ++ "]") : String).data = _
      rw [data_append, data_append]
      simp
    rw [hshape, List.getLast?_concat] at hc
    cases hc
    decide
  | int i =>
    by_cases hneg : i < 0
    · have hshape : (jsonDumps (Value.int i)).data =
          '-' :: natDigits (-i).toNat := by
        show (intDumps i).data = _
        unfold intDumps
        rw [if_pos hneg]
      obtain ⟨hne, _, _⟩ := natDigits_spec (-i).toNat
      obtain ⟨d, hd, hlast⟩ := natDigits_last (-i).toNat
      have hl : (jsonDumps (Value.int i)).data.getLast? = some (digitChar d) := by
        rw [hshape]
        rw [show '-' :: natDigits (-i).toNat = ['-'] ++ natDigits (-i).toNat
          from rfl]
        rw [List.getLast?_append_of_ne_nil _ hne]
        exact hlast
      rw [hl] at hc
      cases hc
      exact (digitChar_facts d hd).2.2.1
    · have hshape : (jsonDumps (Value.int i)).data = natDigits i.toNat := by
        show (intDumps i).data = _
        unfold intDumps
        rw [if_neg hneg]
      obtain ⟨d, hd, hlast⟩ := natDigits_last i.toNat
      rw [hshape, hlast] at hc
      cases hc
      exact (digitChar_facts d hd).2.2.1

theorem entryLine_data_some (n : String) (v : Value) :
    (entryLine (n, some v)).data = n.data ++ ',' :: (jsonDumps v).data := by
  show ((n ++ "," ++ jsonDumps v) : String).data = _
  rw [data_append, data_append]
  simp

theorem read_line_entry (st : ReadState) (n : String) (ov : Option Value)
    (hm : st.meta_loaded = true) (hn : goodName n = true)
    (hv : Option.all goodValue ov = true) :
    read_line st (entryLine (n, ov)) =
      { st with saved_pvs := assocSet st.saved_pvs n ov } := by
  obtain ⟨hne, hchars⟩ := goodName_facts n hn
  obtain ⟨c0, t0, hn0⟩ : ∃ c0 t0, n.data = c0 :: t0 := by
    cases hh : n.data with
    | nil => exact absurd hh hne
    | cons a t => exact ⟨a, t, rfl⟩
  have hc0 := hchars c0 (by rw [hn0]; simp)
  cases ov with
  | none =>
    have hline : entryLine (n, none) = n := rfl
    rw [hline]
    have hhead : n.data.head? = some c0 := by rw [hn0]; rfl
    have hstrip : stripList n.data = n.data := by
      refine stripList_eq_self n.data ?_ ?_
      · intro c hc
        rw [hhead] at hc
        cases hc
        exact hc0.2.1
      · intro c hc
        exact (hchars c (List.mem_of_mem_getLast? hc)).2.1
    have hsp : splitFirstComma n.data = (n.data, none) :=
      splitFirstComma_no_comma n.data (fun c hc => (hchars c hc).1)
    unfold read_line
    rw [if_neg (by
      rintro ⟨_, h2⟩
      rw [hm] at h2
      cases h2)]
    rw [if_pos (by
      refine ⟨?_, ?_⟩
      · rw [hstrip, hn0]
        simp
      · rw [hhead]
        intro hq
        cases hq
        exact hc0.2.2 rfl)]
    simp only [hstrip, hsp]
  | some v =>
    have hgv : goodValue v = true := by simpa using hv
    obtain ⟨cv, tv, hcv, _, _⟩ := dumps_head v
    have hlineD := entryLine_data_some n v
    have hhead : (entryLine (n, some v)).data.head? = some c0 := by
      rw [hlineD, hn0]
      rfl
    have hstrip : stripList (entryLine (n, some v)).data =
        (entryLine (n, some v)).data := by
      refine stripList_eq_self _ ?_ ?_
      · intro c hc
        rw [hhead] at hc
        cases hc
        exact hc0.2.1
      · intro c hc
        rw [hlineD] at hc
        rw [List.getLast?_append_of_ne_nil _ (by simp)] at hc
        rw [show (',' :: (jsonDumps v).data) = [','] ++ (jsonDumps v).data
          from rfl] at hc
        rw [List.getLast?_append_of_ne_nil _ (by rw [hcv]; simp)] at hc
        exact dumps_last_not_ws v c hc
    have hsp : splitFirstComma (entryLine (n, some v)).data =
        (n.data, some (jsonDumps v).data) := by
      rw [hlineD]
      exact splitFirstComma_append n.data _ (fun c hc => (hchars c hc).1)
    unfold read_line
    rw [if_neg (by
      rintro ⟨_, h2⟩
      rw [hm] at h2
      cases h2)]
    rw [if_pos (by
      refine ⟨?_, ?_⟩
      · rw [hstrip, hlineD, hn0]
        simp
      · rw [hhead]
        intro hq
        cases hq
        exact hc0.2.2 rfl)]
    simp only [hstrip, hsp]
    rw [show String.mk (jsonDumps v).data = jsonDumps v from rfl]
    rw [jsonLoads_dumps v hgv]

theorem assocSet_fresh (l : List (String × Option Value)) (k : String)
    (x : Option Value) (h : ∀ q ∈ l, ¬(q.1 = k)) :
    assocSet l k x = l ++ [(k, x)] := by
  induction l with
  | nil => rfl
  | cons q t ih =>
    obtain ⟨qk, qv⟩ := q
    simp only [assocSet]
    rw [if_neg (h (qk, qv) (by simp))]
    rw [ih (fun r hr => h r (by simp [hr]))]
    rfl

theorem fold_read_entries (entries : List (String × Option Value)) :
    ∀ st : ReadState, st.meta_loaded = true →
      (∀ p ∈ entries, goodName p.1 = true ∧ Option.all goodValue p.2 = true) →
      (∀ p ∈ entries, ∀ q ∈ st.saved_pvs, ¬(q.1 = p.1)) →
      (entries.map Prod.fst).Nodup →
      (entries.map entryLine).foldl read_line st =
        { st with saved_pvs := st.saved_pvs ++ entries } := by
  induction entries with
  | nil =>
    intro st _ _ _ _
    show st = _
    simp
  | cons p rest ih =>
    intro st hm hgood hfresh hnodup
    obtain ⟨n, ov⟩ := p
    have hgp := hgood (n, ov) (by simp)
    have hset : assocSet st.saved_pvs n ov = st.saved_pvs ++ [(n, ov)] :=
      assocSet_fresh st.saved_pvs n ov
        (fun q hq => hfresh (n, ov) (by simp) q hq)
    show ((rest.map entryLine).foldl read_line
      (read_line st (entryLine (n, ov)))) = _
    rw [read_line_entry st n ov hm hgp.1 hgp.2, hset]
    rw [ih { st with saved_pvs := st.saved_pvs ++ [(n, ov)] } hm
      (fun q hq => hgood q (by simp [hq]))
      (by
        intro q hq r hr
        simp only [List.mem_append, List.mem_singleton] at hr
        rcases hr with hr | hr
        · exact hfresh q (by simp [hq]) r hr
        · subst hr
          show ¬(n = q.1)
          simp only [List.map_cons, List.nodup_cons] at hnodup
          intro heq
          exact hnodup.1 (heq ▸ List.mem_map_of_mem Prod.fst hq))
      (by simp only [List.map_cons, List.nodup_cons] at hnodup; exact hnodup.2)]
    simp

theorem read_line_header (meta : List (String × Value))
    (hg : goodMeta meta = true) :
    read_line ⟨[], [], [], false⟩ ("#" ++ jsonDumpsMeta meta) =
      ⟨[], meta, [], true⟩ := by
  have hd : (("#" ++ jsonDumpsMeta meta) : String).data =
      '#' :: (jsonDumpsMeta meta).data := by
    rw [data_append]
    rfl
  unfold read_line
  rw [if_pos (by rw [hd]; exact ⟨rfl, rfl⟩)]
  rw [hd]
  show (match jsonLoadsMeta (String.mk (jsonDumpsMeta meta).data) with
    | some m => _ | none => _) = _
  rw [show String.mk (jsonDumpsMeta meta).data = jsonDumpsMeta meta from rfl]
  rw [jsonLoadsMeta_dumps meta hg]

/-- Claim C6: round-trip of the record codec — reading back a file
produced by `parse_to_save_file` yields exactly the same entries and
metadata with an empty error list, for records whose names are valid
channel names (non-empty, distinct, no comma/whitespace/`#`) and whose
values lie in the escape-free JSON fragment the codec emits. -/
theorem codec_round_trip (entries : List (String × Option Value))
    (meta : List (String × Value))
    (hnames : ∀ p ∈ entries, goodName p.1 = true)
    (hvals : ∀ p ∈ entries, Option.all goodValue p.2 = true)
    (hnodup : (entries.map Prod.fst).Nodup)
    (hmeta : goodMeta meta = true) :
    parse_from_save_file (parse_to_save_file entries meta) =
      ⟨entries, meta, []⟩ := by
  unfold parse_from_save_file parse_to_save_file
  rw [List.foldl_cons]
  rw [read_line_header meta hmeta]
  rw [fold_read_entries entries ⟨[], meta, [], true⟩ rfl
    (fun p hp => ⟨hnames p hp, hvals p hp⟩)
    (by intro p _ q hq; cases hq)
    hnodup]
  rw [if_neg (fun h => Bool.noConfusion h)]
  rfl

/-- Witness for C6 on a concrete record with a scalar, a string, an
array and an absent value. -/
theorem codec_round_trip_witness :
    (∀ p ∈ entriesC6, goodName p.1 = true) ∧
    (∀ p ∈ entriesC6, Option.all goodValue p.2 = true) ∧
    (entriesC6.map Prod.fst).Nodup ∧
    goodMeta metaC6 = true ∧
    parse_from_save_file (parse_to_save_file entriesC6 metaC6) =
      ⟨entriesC6, metaC6, []⟩ :=
  ⟨by decide, by decide, by decide, by decide,
   codec_round_trip entriesC6 metaC6 (by decide) (by decide) (by decide)
     (by decide)⟩
